import Mathlib

/-!
Shallow embedding of the layered keymap engine of the xppen-ack05 input
translator (src/layout/switcher.rs, src/layout/layer.rs, src/layout/keys.rs,
src/layout/types.rs) and of the change detector (src/kbd_events/mod.rs).

Conventions of the embedding:
* `evdev::Key` is opaque to the engine; it is modelled as `Nat`.
* `Instant` is modelled as a timestamp in milliseconds (`Nat`); Rust's
  `Instant` subtraction saturates at zero, as does `Nat` subtraction.
* The `KeymapEvent` enum used by `switcher.rs` and `layer.rs` is modelled
  from the exhaustive matches in those files (the `types.rs` present in the
  tree is an earlier draft that lacks `Klong`/`Khl`/`Khtl`).
* `get_key_event_inheritance` is a `loop` in the source whose only state is
  the current layer index; it is modelled fuel-indexed (`inhLoop`), with
  `none` meaning the loop has not returned within the given fuel.  A chain
  that revisits a layer index never returns (the state repeats), and a chain
  that never revisits one terminates within `layers.length + 1` steps, so
  `inhFuel` is sufficient fuel for every terminating run.
* `Vec::swap_remove` is modelled by `swapRemove`.
* Emitted key codes are recorded together with the coordinate that
  `emit_keycodes` receives (the source drops it when queueing; keeping it
  lets per-coordinate statements be made, the real queue is the projection).
-/

namespace Ack05

abbrev Key := Nat
abbrev LayerId := Nat
abbrev Time := Nat

/-- `KeyCoords(block, row, column)` from `types.rs`. -/
structure KeyCoords where
  block : Nat
  row : Nat
  col : Nat
deriving DecidableEq, Repr

/-- Sentinel coordinate used for layer-activation emissions (`switcher.rs`). -/
def LAYER_KEY : KeyCoords := ⟨255, 255, 255⟩

/-- Hold threshold in milliseconds (`HOLD_THRESHOLD_MS`). -/
def HOLD_THRESHOLD_MS : Time := 200

/-- `KeyGroup` from `keys.rs`. -/
structure KeyGroup where
  sequential : Bool
  keys : List Key
  mask : List Key
deriving DecidableEq, Repr

/-- `KeymapEvent` as matched exhaustively by `switcher.rs`/`layer.rs`. -/
inductive KeymapEvent where
  | No
  | Inh
  | Pass
  | Kg (kg : KeyGroup)
  | Klong (kshort klong : KeyGroup)
  | Khl (k : KeyGroup) (layer : LayerId)
  | Khtl (k : KeyGroup) (layer : LayerId)
  | Lmove (layer : LayerId)
  | Lhold (layer : LayerId)
  | Ltap (layer : LayerId)
  | Lactivate (layer : LayerId)
  | Ldeactivate (layer : LayerId)
  | Ldisable (layer : LayerId)
  | LhtL (hold tap : LayerId)
  | LhtK (hold : LayerId) (k : KeyGroup)
deriving DecidableEq, Repr

/-- `LayerStatus` from `types.rs`. -/
inductive LayerStatus where
  | LayerActive
  | LayerPassthrough
  | LayerActiveUntilKeyRelease (coords : KeyCoords)
  | LayerActiveUntilKeyReleaseTap (coords : KeyCoords)
  | LayerActiveUntilAnyKeyPress
  | LayerHoldAndTapToL (coords : KeyCoords) (t : Time) (layer : LayerId)
  | LayerHoldAndTapKey (coords : KeyCoords) (t : Time) (layer : LayerId)
  | LayerDisabled
deriving DecidableEq, Repr

open KeymapEvent LayerStatus

/-- `Layer` from `layer.rs` (static configuration). -/
structure Layer where
  status_on_reset : LayerStatus
  inherit : Option LayerId
  on_active_keys : List Key
  disable_active_on_press : Bool
  on_timeout_layer : Option LayerId := none
  timeout : Option Time := none
  keymap : List (List (List KeymapEvent))
  default_action : KeymapEvent
deriving Repr

/-- `Layer::get_key_event`: grid lookup falling back to `default_action`. -/
def Layer.get_key_event (l : Layer) (coords : KeyCoords) : KeymapEvent :=
  match l.keymap.get? coords.block with
  | none => l.default_action
  | some block =>
    match block.get? coords.row with
    | none => l.default_action
    | some row =>
      match row.get? coords.col with
      | none => l.default_action
      | some ev => ev

/-- A neutral layer used as the out-of-range default of total indexing
(the source would panic on an out-of-range layer index). -/
def defaultLayer : Layer :=
  { status_on_reset := LayerDisabled
    inherit := none
    on_active_keys := []
    disable_active_on_press := false
    keymap := []
    default_action := No }

abbrev Config := List Layer

def getLayer (layers : Config) (idx : LayerId) : Layer :=
  layers.getD idx defaultLayer

/-- `KeyReleaseMode` from `switcher.rs`. -/
inductive KeyReleaseMode where
  | Reverse
  | ForceClick
deriving DecidableEq, Repr

open KeyReleaseMode

/-- `LayerStackEntry` from `switcher.rs`. -/
structure LayerStackEntry where
  status : LayerStatus
  active_keys : Bool
deriving DecidableEq, Repr

def defaultEntry : LayerStackEntry := ⟨LayerDisabled, false⟩

/-- One entry of `LayerSwitcher::presses`
`(LayerId, KeyCoords, KeyReleaseMode, Option<&KeyGroup>, Instant)`. -/
structure PressRec where
  layer : LayerId
  coords : KeyCoords
  mode : KeyReleaseMode
  kg : Option KeyGroup
  t : Time
deriving DecidableEq, Repr

/-- One queued emission: the arguments `emit_keycodes` receives. -/
structure Emit where
  coords : KeyCoords
  key : Key
  pressed : Bool
deriving DecidableEq, Repr

/-- The mutable part of `LayerSwitcher` (the layer list is the read-only
configuration and is passed separately). -/
structure SwState where
  stack : List LayerStackEntry
  presses : List PressRec
  emitted : List Emit
deriving DecidableEq, Repr

def statusOf (s : SwState) (idx : LayerId) : LayerStatus :=
  (s.stack.getD idx defaultEntry).status

def activeKeysOf (s : SwState) (idx : LayerId) : Bool :=
  (s.stack.getD idx defaultEntry).active_keys

def setStatus (s : SwState) (idx : LayerId) (st : LayerStatus) : SwState :=
  { s with stack := s.stack.set idx { s.stack.getD idx defaultEntry with status := st } }

def setActiveKeys (s : SwState) (idx : LayerId) (b : Bool) : SwState :=
  { s with stack := s.stack.set idx { s.stack.getD idx defaultEntry with active_keys := b } }

/-- `emit_keycodes`. -/
def emit (s : SwState) (coords : KeyCoords) (k : Key) (pressed : Bool) : SwState :=
  { s with emitted := s.emitted ++ [⟨coords, k, pressed⟩] }

def emitList (s : SwState) (es : List Emit) : SwState :=
  { s with emitted := s.emitted ++ es }

/-- `Vec::swap_remove(i)`: replace element `i` with the last one, pop the last. -/
def swapRemove (l : List α) (i : Nat) : List α :=
  match l.getLast? with
  | none => l
  | some last => (l.set i last).dropLast

/-- `LayerSwitcher::start`. -/
def start (layers : Config) : SwState :=
  let stack := layers.map (fun l =>
    ({ status := l.status_on_reset
       active_keys := l.status_on_reset ≠ LayerDisabled ∧
         l.status_on_reset ≠ LayerPassthrough : LayerStackEntry }))
  { stack := stack.set 0 { stack.getD 0 defaultEntry with status := LayerActive }
    presses := []
    emitted := [] }

/-- `on_layer_activation`. -/
def on_layer_activation (layers : Config) (idx : LayerId) (s : SwState) : SwState :=
  let s := emitList s ((getLayer layers idx).on_active_keys.map
    (fun k => ⟨LAYER_KEY, k, true⟩))
  setActiveKeys s idx true

/-- `on_layer_deactivation`. -/
def on_layer_deactivation (layers : Config) (idx : LayerId) (s : SwState) : SwState :=
  if !(activeKeysOf s idx) then s
  else emitList s ((getLayer layers idx).on_active_keys.map
    (fun k => ⟨LAYER_KEY, k, false⟩))

/-- `layer_deactivate`. -/
def layer_deactivate (layers : Config) (idx : LayerId) (s : SwState) : SwState :=
  if idx = 0 then s
  else if statusOf s idx = LayerDisabled then s
  else if statusOf s idx = LayerPassthrough then s
  else on_layer_deactivation layers idx (setStatus s idx LayerPassthrough)

/-- `layer_disable`. -/
def layer_disable (layers : Config) (idx : LayerId) (s : SwState) : SwState :=
  if idx = 0 then s
  else if statusOf s idx = LayerDisabled then s
  else
    let s := if statusOf s idx ≠ LayerPassthrough then layer_deactivate layers idx s else s
    setStatus s idx LayerDisabled

/-- `layer_activate`. -/
def layer_activate (layers : Config) (idx : LayerId) (s : SwState) : SwState :=
  if statusOf s idx = LayerDisabled then s
  else if statusOf s idx = LayerActive then s
  else on_layer_activation layers idx (setStatus s idx LayerActive)

/-- `layer_hold`. -/
def layer_hold (layers : Config) (idx : LayerId) (coords : KeyCoords) (s : SwState) : SwState :=
  if statusOf s idx = LayerDisabled then s
  else if statusOf s idx ≠ LayerPassthrough then s
  else on_layer_activation layers idx (setStatus s idx (LayerActiveUntilKeyRelease coords))

/-- `layer_tap`. -/
def layer_tap (layers : Config) (idx : LayerId) (coords : KeyCoords) (s : SwState) : SwState :=
  if statusOf s idx = LayerDisabled then s
  else if statusOf s idx ≠ LayerPassthrough then s
  else on_layer_activation layers idx (setStatus s idx (LayerActiveUntilKeyReleaseTap coords))

/-- `layer_hold_tap`. -/
def layer_hold_tap (layers : Config) (idx idx2 : LayerId) (coords : KeyCoords) (t : Time)
    (s : SwState) : SwState :=
  if statusOf s idx = LayerDisabled then s
  else if statusOf s idx ≠ LayerPassthrough then s
  else on_layer_activation layers idx (setStatus s idx (LayerHoldAndTapToL coords t idx2))

/-- `layer_hold_key`. -/
def layer_hold_key (layers : Config) (activate_idx : LayerId) (coords : KeyCoords) (t : Time)
    (key_layer : LayerId) (s : SwState) : SwState :=
  if statusOf s activate_idx = LayerDisabled then s
  else if statusOf s activate_idx ≠ LayerPassthrough then s
  else on_layer_activation layers activate_idx
    (setStatus s activate_idx (LayerHoldAndTapKey coords t key_layer))

/-- `layer_move`.  Note: the loop body of the source deactivates `idx` (the
target layer), not the loop variable `l_idx`; this is modelled verbatim. -/
def layer_move (layers : Config) (idx : LayerId) (s : SwState) : SwState :=
  if statusOf s idx = LayerDisabled then s
  else
    let s := (List.range s.stack.length).foldl
      (fun acc l_idx => if idx = l_idx then acc else layer_deactivate layers idx acc) s
    layer_activate layers idx s

/-- `before_key_press`. -/
def before_key_press (layers : Config) (layer : LayerId) (s : SwState) : SwState :=
  if (getLayer layers layer).disable_active_on_press ∧ activeKeysOf s layer then
    let s := emitList s ((getLayer layers layer).on_active_keys.reverse.map
      (fun k => ⟨LAYER_KEY, k, false⟩))
    setActiveKeys s layer false
  else s

/-- `after_key_release`. -/
def after_key_release (layers : Config) (layer : LayerId) (s : SwState) : SwState :=
  if statusOf s layer = LayerDisabled ∨ statusOf s layer = LayerPassthrough then s
  else if !(getLayer layers layer).disable_active_on_press then s
  else if activeKeysOf s layer then s
  else
    let s := emitList s ((getLayer layers layer).on_active_keys.map
      (fun k => ⟨LAYER_KEY, k, true⟩))
    setActiveKeys s layer true

/-- `keygroup_press`. -/
def keygroup_press (layers : Config) (kg : KeyGroup) (coords : KeyCoords) (srclayer : LayerId)
    (t : Time) (force_click : Bool) (s : SwState) : SwState :=
  let s := before_key_press layers srclayer s
  let s := emitList s (kg.mask.map (fun k => ⟨coords, k, false⟩))
  let s := emitList s (kg.keys.flatMap (fun k =>
    if kg.sequential then [⟨coords, k, true⟩, ⟨coords, k, false⟩] else [⟨coords, k, true⟩]))
  let s := if !kg.sequential ∧ force_click then
      emitList s (kg.keys.reverse.map (fun k => ⟨coords, k, false⟩))
    else s
  if kg.sequential ∨ force_click then
    let s := emitList s (kg.mask.reverse.map (fun k => ⟨coords, k, true⟩))
    after_key_release layers srclayer s
  else
    { s with presses := s.presses ++ [⟨srclayer, coords, Reverse, some kg, t⟩] }

/-- `keygroup_release`. -/
def keygroup_release (layers : Config) (kg : KeyGroup) (coords : KeyCoords)
    (srclayer : LayerId) (s : SwState) : SwState :=
  if kg.sequential then s
  else
    let s := emitList s (kg.keys.reverse.map (fun k => ⟨coords, k, false⟩))
    let s := emitList s (kg.mask.reverse.map (fun k => ⟨coords, k, true⟩))
    after_key_release layers srclayer s

/-- `find_press`: index and fields of the first press record at `coords`. -/
def find_press (presses : List PressRec) (coords : KeyCoords) : Option (Nat × PressRec) :=
  (presses.enum.find? (fun p => p.2.coords = coords))

/-- One step of the `get_key_event_inheritance` loop, fuel-indexed.
`idx` is the layer the walk started from (the reported layer), `cur` the
loop variable `layer_idx`.  `none` means the loop has not returned within
`fuel` iterations. -/
def inhLoop (layers : Config) (coords : KeyCoords) (idx : LayerId) :
    LayerId → Nat → Option (LayerId × KeymapEvent)
  | _, 0 => none
  | cur, fuel + 1 =>
    match (getLayer layers cur).get_key_event coords with
    | Inh =>
      match (getLayer layers cur).inherit with
      | some next_p_idx => inhLoop layers coords idx next_p_idx fuel
      | none => some (0, (getLayer layers cur).default_action)
    | Pass => some (0, (getLayer layers cur).default_action)
    | ev => some (idx, ev)

/-- Sufficient fuel for every terminating `get_key_event_inheritance` run:
a run that does not revisit a layer index visits at most `layers.length`
distinct ones. -/
def inhFuel (layers : Config) : Nat := layers.length + 1

/-- `get_key_event_inheritance` (the terminating runs). -/
def get_key_event_inheritance (layers : Config) (coords : KeyCoords) (idx : LayerId) :
    Option (LayerId × KeymapEvent) :=
  inhLoop layers coords idx idx (inhFuel layers)

/-- The labelled scan of `get_key_event` over a (descending) list of layer
indices.  The outer `none` models divergence of the inheritance walk. -/
def scanLayers (layers : Config) (s : SwState) (coords : KeyCoords) :
    List Nat → Option (LayerId × Option KeymapEvent)
  | [] => some (0, none)
  | idx :: rest =>
    if statusOf s idx = LayerDisabled ∨ statusOf s idx = LayerPassthrough then
      scanLayers layers s coords rest
    else
      match get_key_event_inheritance layers coords idx with
      | none => none
      | some (_, ev) =>
        if ev ≠ Pass then some (idx, some ev) else scanLayers layers s coords rest

/-- `get_key_event`. -/
def get_key_event (layers : Config) (s : SwState) (coords : KeyCoords) :
    Option (LayerId × Option KeymapEvent) :=
  scanLayers layers s coords (List.range s.stack.length).reverse

/-- The post-press retirement of tap layers (`process_keyevent_press`, final
loop): every layer whose status (in the snapshot taken after dispatch) is
`LayerActiveUntilAnyKeyPress` is passed to `layer_disable`. -/
def retireTapLayers (layers : Config) (s : SwState) : SwState :=
  s.stack.enum.foldl
    (fun acc p =>
      if p.2.status = LayerActiveUntilAnyKeyPress then layer_disable layers p.1 acc else acc)
    s

/-- Dispatch of a resolved action in `process_keyevent_press`. -/
def dispatch_press (layers : Config) (srclayer : LayerId) (ev : KeymapEvent)
    (coords : KeyCoords) (t : Time) (s : SwState) : SwState :=
  match ev with
  | No => s
  | Inh => s
  | Pass => s
  | Kg kg => keygroup_press layers kg coords srclayer t false s
  | Klong kshort _ =>
    { s with presses := s.presses ++ [⟨srclayer, coords, ForceClick, some kshort, t⟩] }
  | Khl k _ =>
    { s with presses := s.presses ++ [⟨srclayer, coords, ForceClick, some k, t⟩] }
  | Khtl k _ =>
    { s with presses := s.presses ++ [⟨srclayer, coords, ForceClick, some k, t⟩] }
  | Lmove idx => layer_move layers idx s
  | Lhold idx => layer_hold layers idx coords s
  | Ltap idx => layer_tap layers idx coords s
  | Lactivate idx => layer_activate layers idx s
  | Ldisable idx => layer_disable layers idx s
  | Ldeactivate idx => layer_deactivate layers idx s
  | LhtL idx idx2 => layer_hold_tap layers idx idx2 coords t s
  | LhtK idx _ => layer_hold_key layers idx coords t srclayer s

/-- `process_keyevent_press`.  `none` models divergence of the inheritance
walk (the source loops forever on a cyclic `Inh` chain). -/
def process_keyevent_press (layers : Config) (s : SwState) (coords : KeyCoords)
    (t : Time) : Option SwState :=
  match get_key_event layers s coords with
  | none => none
  | some (_, none) => some s
  | some (srclayer, some ev) =>
    some (retireTapLayers layers (dispatch_press layers srclayer ev coords t s))

/-- `process_keyevent_long_press`. -/
def process_keyevent_long_press (layers : Config) (s : SwState) (coords : KeyCoords)
    (t : Time) : SwState :=
  match find_press s.presses coords with
  | none => s
  | some (i, press) =>
    if t - press.t ≤ HOLD_THRESHOLD_MS then s
    else
      match (getLayer layers press.layer).get_key_event coords with
      | Klong _ klong =>
        if press.mode = ForceClick then
          keygroup_press layers klong coords press.layer t false
            { s with presses := swapRemove s.presses i }
        else s
      | Khtl _ l =>
        setStatus (layer_tap layers l coords { s with presses := swapRemove s.presses i })
          l LayerActiveUntilAnyKeyPress
      | Khl _ l =>
        layer_activate layers l { s with presses := swapRemove s.presses i }
      | _ => s

/-- The layer-state first pass of `process_keyevent_release`, as a fold over
the snapshot `self.layer_stack.clone()`. -/
def releaseStep (layers : Config) (coords : KeyCoords) (t : Time)
    (acc : SwState) (p : Nat × LayerStackEntry) : SwState :=
  match p.2.status with
  | LayerActiveUntilKeyRelease wait_coords =>
    if wait_coords = coords then layer_deactivate layers p.1 acc else acc
  | LayerActiveUntilKeyReleaseTap wait_coords =>
    if wait_coords = coords then setStatus acc p.1 LayerActiveUntilAnyKeyPress else acc
  | LayerHoldAndTapKey wait_coords t0 lidx =>
    if wait_coords = coords then
      let acc := layer_deactivate layers p.1 acc
      if t - t0 < HOLD_THRESHOLD_MS then
        match (getLayer layers lidx).get_key_event wait_coords with
        | LhtK _ k => keygroup_press layers k coords lidx t true acc
        | _ => acc
      else acc
    else acc
  | LayerHoldAndTapToL wait_coords t0 next_layer =>
    if wait_coords = coords then
      let acc := layer_deactivate layers p.1 acc
      if t - t0 < HOLD_THRESHOLD_MS then
        setStatus (layer_tap layers next_layer coords acc)
          next_layer LayerActiveUntilAnyKeyPress
      else acc
    else acc
  | _ => acc

/-- `process_keyevent_release`. -/
def process_keyevent_release (layers : Config) (s : SwState) (coords : KeyCoords)
    (t : Time) : SwState :=
  let s := s.stack.enum.foldl (releaseStep layers coords t) s
  match find_press s.presses coords with
  | none => s
  | some (i, press) =>
    let s := { s with presses := swapRemove s.presses i }
    let s :=
      match press.kg with
      | some kg =>
        if press.mode = ForceClick then
          keygroup_press layers kg coords press.layer t true s
        else
          keygroup_release layers kg coords press.layer s
      | none => s
    after_key_release layers press.layer s

/-- `get_active_layers`. -/
def get_active_layers (s : SwState) : List LayerId :=
  (s.stack.enum.filter
    (fun p => p.2.status ≠ LayerDisabled ∧ p.2.status ≠ LayerPassthrough)).map (·.1)

/-- `KeyStateChange` from `kbd_events/mod.rs`, instantiated at coordinates. -/
inductive KeyStateChange where
  | Pressed (k : KeyCoords)
  | Released (k : KeyCoords)
  | Click (k : KeyCoords)
  | LongPress (k : KeyCoords)
deriving DecidableEq, Repr

/-- `LayerSwitcher::process_keyevent`: a `Click` is a press followed by a
release at the same timestamp. -/
def process_keyevent (layers : Config) (s : SwState) (ev : KeyStateChange)
    (t : Time) : Option SwState :=
  match ev with
  | .Pressed k => process_keyevent_press layers s k t
  | .Released k => some (process_keyevent_release layers s k t)
  | .Click k =>
    (process_keyevent_press layers s k t).map
      (fun s => process_keyevent_release layers s k t)
  | .LongPress k => some (process_keyevent_long_press layers s k t)

/-- Feeding a timed event sequence through `process_keyevent`. -/
def runEvents (layers : Config) (s : SwState) : List (KeyStateChange × Time) → Option SwState
  | [] => some s
  | (ev, t) :: rest =>
    (process_keyevent layers s ev t).bind (fun s => runEvents layers s rest)

/-! ### ChangeDetector (`src/kbd_events/mod.rs`)

Buttons are modelled as `Nat`; the `HasState` trait becomes an explicit
`hasState : Nat → Bool` parameter.  The `EnumSet` input is a duplicate-free
list iterated in order; the `HashMap` of tracked buttons is an association
list iterated in insertion order (the source's iteration order over the hash
map is unspecified; the association list is one determinisation of it). -/

inductive CDEvent where
  | Pressed (k : Nat)
  | Released (k : Nat)
  | Click (k : Nat)
  | LongPress (k : Nat)
deriving DecidableEq, Repr

/-- `ChangeDetector`: tracked state `button → (press_instant, long_sent)` and
the not-yet-consumed event buffer. -/
structure CDState where
  state : List (Nat × (Time × Bool))
  events : List CDEvent
deriving DecidableEq, Repr

def CDState.empty : CDState := ⟨[], []⟩

def cdLookup (m : List (Nat × (Time × Bool))) (k : Nat) : Option (Time × Bool) :=
  (m.find? (fun p => p.1 = k)).map (·.2)

/-- `HashMap::insert` on the association list: replace in place, else append. -/
def cdInsert (m : List (Nat × (Time × Bool))) (k : Nat) (v : Time × Bool) :
    List (Nat × (Time × Bool)) :=
  if (m.find? (fun p => p.1 = k)).isSome then
    m.map (fun p => if p.1 = k then (k, v) else p)
  else m ++ [(k, v)]

/-- The long-press re-check shared by `analyze` and `tick` for one tracked
button `k` with record `(press_t, long_p)`. -/
def cdLongCheck (t : Time) (k : Nat) (press_t : Time) (long_p : Bool)
    (st : List (Nat × (Time × Bool))) (evs : List CDEvent) :
    List (Nat × (Time × Bool)) × List CDEvent :=
  if t - press_t > 200 then
    (if !long_p then cdInsert st k (press_t, true) else st, evs ++ [CDEvent.LongPress k])
  else (st, evs)

/-- `ChangeDetector::tick`. -/
def cdTick (t : Time) (s : CDState) : CDState :=
  let r := s.state.foldl
    (fun (acc : List (Nat × (Time × Bool)) × List CDEvent) p =>
      match cdLookup acc.1 p.1 with
      | none => acc
      | some (press_t, long_p) => cdLongCheck t p.1 press_t long_p acc.1 acc.2)
    (s.state, s.events)
  ⟨r.1, r.2⟩

/-- One iteration of the pressed-keys loop of `analyze` (the accumulator is
`(state, events, new_presses_detected)`; the first `if` of the loop body
only pushes events and sets the flag, it never touches the tracked state,
which the second `if` then re-reads). -/
def cdPressStep (hasState : Nat → Bool) (t : Time)
    (acc : List (Nat × (Time × Bool)) × List CDEvent × Bool) (k : Nat) :
    List (Nat × (Time × Bool)) × List CDEvent × Bool :=
  let st := acc.1
  let evs :=
    if (cdLookup st k).isNone ∨ ¬hasState k then
      if hasState k then acc.2.1 ++ [CDEvent.Pressed k]
      else acc.2.1 ++ [CDEvent.Click k]
    else acc.2.1
  let newp :=
    if (cdLookup st k).isNone ∨ ¬hasState k then
      (if hasState k then true else acc.2.2)
    else acc.2.2
  match cdLookup st k with
  | some (press_t, long_p) =>
    if hasState k then
      let r := cdLongCheck t k press_t long_p st evs
      (r.1, r.2, newp)
    else (st, evs, newp)
  | none => (st, evs, newp)

/-- One iteration of the final insertion loop of `analyze`. -/
def cdInsertNew (t : Time) (st : List (Nat × (Time × Bool))) (k : Nat) :
    List (Nat × (Time × Bool)) :=
  if (cdLookup st k).isNone then st ++ [(k, (t, false))] else st

/-- `ChangeDetector::analyze`. -/
def cdAnalyze (hasState : Nat → Bool) (input : List Nat) (t : Time) (s : CDState) :
    CDState × Bool :=
  -- Retrieve released keys
  let evs := s.events ++ s.state.filterMap
    (fun p => if p.1 ∉ input ∧ hasState p.1 then some (CDEvent.Released p.1) else none)
  -- Retrieve pressed keys
  let r := input.foldl (cdPressStep hasState t) (s.state, evs, false)
  -- Keep the last known state: remove all released keys
  let st := r.1.filter (fun p => p.1 ∈ input)
  -- Insert all newly pressed keys with timestamp
  let st := input.foldl (cdInsertNew t) st
  (⟨st, r.2.1⟩, r.2.2)

/-- `ChangeDetector::next`: `self.events.pop()` — `Vec::pop` takes the *last*
element. -/
def cdNext (s : CDState) : Option CDEvent × CDState :=
  (s.events.getLast?, ⟨s.state, s.events.dropLast⟩)

/-- `ChangeDetector::has_pressed`. -/
def cdHasPressed (s : CDState) : Bool :=
  !s.state.isEmpty

/-- Up to `n` calls of `next`, collecting the returned events in order. -/
def cdDrainAux : Nat → CDState → List CDEvent
  | 0, _ => []
  | n + 1, s =>
    match (cdNext s).1 with
    | none => []
    | some e => e :: cdDrainAux n (cdNext s).2

/-- Repeatedly calling `next` until the buffer is empty, collecting the
events in the order they are returned (`s.events.length` calls always
suffice, each call shortens the buffer). -/
def cdDrain (s : CDState) : List CDEvent :=
  cdDrainAux s.events.length s

/-! ### Concrete configurations used by the claims

Button coordinates follow the tests: `B01=(0,0,0)`, `B02=(0,0,1)`. -/

def B01 : KeyCoords := ⟨0, 0, 0⟩
def B02 : KeyCoords := ⟨0, 0, 1⟩

/-- Chord key group holding key `10`. -/
def gA : KeyGroup := ⟨false, [10], []⟩
/-- Chord key group holding key `11`. -/
def gB : KeyGroup := ⟨false, [11], []⟩
/-- Chord key group holding keys `12, 13, 14` (a long-press chord). -/
def gLong : KeyGroup := ⟨false, [12, 13, 14], []⟩
/-- Sequential key group clicking keys `10` then `11`. -/
def gSeqAB : KeyGroup := ⟨true, [10, 11], []⟩

def mkLayer (reset : LayerStatus) (grid : List (List (List KeymapEvent)))
    (inh : Option LayerId := none) (onActive : List Key := [])
    (dflt : KeymapEvent := Pass) : Layer :=
  { status_on_reset := reset
    inherit := inh
    on_active_keys := onActive
    disable_active_on_press := false
    keymap := grid
    default_action := dflt }

/-- Tap (dead-key) configuration: `B01 ↦ Ltap 1`; layer 1 starts passthrough
and holds key `20` while active. -/
def cfgTap : Config :=
  [ mkLayer LayerActive [[[Ltap 1, Kg gB]]],
    mkLayer LayerPassthrough [[[No, No]]] none [20] ]

/-- `Lmove` configuration: layer 1 starts active, layer 2 passthrough,
`B01 ↦ Lmove 2` on the base layer. -/
def cfgMove : Config :=
  [ mkLayer LayerActive [[[Lmove 2]]],
    mkLayer LayerActive [],
    mkLayer LayerPassthrough [] ]

/-- `Khtl` whose target layer is the base layer 0. -/
def cfgKhtl0 : Config :=
  [ mkLayer LayerActive [[[Khtl gA 0]]] ]

/-- `Khtl` whose target layer 1 starts disabled. -/
def cfgKhtl1 : Config :=
  [ mkLayer LayerActive [[[Khtl gA 1]]],
    mkLayer LayerDisabled [] ]

/-- A single sequential key group on the base layer. -/
def cfgSeq : Config :=
  [ mkLayer LayerActive [[[Kg gSeqAB]]] ]

/-- Top layer maps `B01 ↦ Pass` but its `default_action` is the concrete
group `gA`; the base layer maps `B01 ↦ Kg gB`. -/
def cfgPassDflt : Config :=
  [ mkLayer LayerActive [[[Kg gB]]],
    mkLayer LayerActive [[[Pass]]] none [] (Kg gA) ]

/-- A malformed configuration with a self-inheriting `Inh` cell on layer 1. -/
def cfgCycle : Config :=
  [ mkLayer LayerActive [[[No]]],
    mkLayer LayerActive [[[Inh]]] (some 1) ]

/-- `Klong` configuration: `B01 ↦ Klong gA gLong`. -/
def cfgKlong : Config :=
  [ mkLayer LayerActive [[[Klong gA gLong]]] ]

/-- Two active layers; the top one maps `B01 ↦ Pass` and its
`default_action` is also `Pass`, so the scan falls through to the base. -/
def cfgPassPass : Config :=
  [ mkLayer LayerActive [[[Kg gB]]],
    mkLayer LayerActive [[[Pass]]] ]

/-- The switcher state after `Pressed B01` at `t = 0` under `cfgKlong`:
layer 0 active, one deferred `ForceClick` record holding the short group. -/
def sKlong : SwState :=
  ⟨[⟨LayerActive, true⟩], [⟨0, B01, ForceClick, some gA, 0⟩], []⟩

/-! ### Derived notions used in the theorems -/

/-- The successor relation of the `get_key_event_inheritance` loop: the loop
continues (with a new current layer) exactly when the cell is `Inh` and the
layer has an `inherit` parent. -/
def inhStep (layers : Config) (coords : KeyCoords) (cur : LayerId) : Option LayerId :=
  match (getLayer layers cur).get_key_event coords with
  | Inh => (getLayer layers cur).inherit
  | _ => none

/-- The `Inh` chain starting at `cur` leaves the `Inh`-following regime
within `k` steps (so the loop returns). -/
def chainStops (layers : Config) (coords : KeyCoords) : Nat → LayerId → Bool
  | 0, cur => (inhStep layers coords cur).isNone
  | k + 1, cur =>
    match inhStep layers coords cur with
    | none => true
    | some nxt => chainStops layers coords k nxt

/-- Key-down emissions at coordinate `c`, in order. -/
def downsAt (c : KeyCoords) (es : List Emit) : List Key :=
  (es.filter (fun e => e.coords = c ∧ e.pressed = true)).map (·.key)

/-- Key-up emissions at coordinate `c`, in order. -/
def upsAt (c : KeyCoords) (es : List Emit) : List Key :=
  (es.filter (fun e => e.coords = c ∧ e.pressed = false)).map (·.key)

/-- All key groups referenced by one keymap cell. -/
def KeymapEvent.keygroups : KeymapEvent → List KeyGroup
  | Kg kg => [kg]
  | Klong kshort klong => [kshort, klong]
  | Khl k _ => [k]
  | Khtl k _ => [k]
  | LhtK _ k => [k]
  | _ => []

/-- All keymap cells of a layer, the `default_action` included. -/
def Layer.allCells (l : Layer) : List KeymapEvent :=
  l.default_action :: l.keymap.flatMap (fun b => b.flatMap id)

/-- A configuration is a *chord configuration* when every key group it can
fire is non-sequential (a held chord), no layer emits `on_active_keys`, and
every reset status is one the configuration loader produces. -/
def chordConfig (layers : Config) : Prop :=
  ∀ l ∈ layers,
    l.on_active_keys = [] ∧
    (l.status_on_reset = LayerActive ∨ l.status_on_reset = LayerPassthrough ∨
      l.status_on_reset = LayerDisabled) ∧
    ∀ ev ∈ l.allCells, ∀ kg ∈ ev.keygroups, kg.sequential = false

/-- A stack entry whose status is one of the three loader-producible ones;
such an entry is untouched by the release first pass and by the tap-layer
retirement. -/
def InertEntry (e : LayerStackEntry) : Prop :=
  e.status = LayerActive ∨ e.status = LayerPassthrough ∨ e.status = LayerDisabled

/-! ## Theorems -/

/-- **C1.** The source retires a tap layer with `layer_disable`, not with a
deactivation to `LayerPassthrough`: with `B01 ↦ Ltap 1`, after `Pressed B01`,
`Released B01` and the consuming `Pressed B02`, layer 1's status is
`LayerDisabled`, and a later `Click B01` can no longer activate it (its
status stays `LayerDisabled` and nothing is emitted for the click). -/
theorem C1_tap_layer_ends_disabled :
    (runEvents cfgTap (start cfgTap)
      [(.Pressed B01, 0), (.Released B01, 0), (.Pressed B02, 1)]).map
        (fun s => statusOf s 1) = some LayerDisabled ∧
    (runEvents cfgTap (start cfgTap)
      [(.Pressed B01, 0), (.Released B01, 0), (.Pressed B02, 1), (.Click B01, 2)]).map
        (fun s => (statusOf s 1, s.emitted.length)) = some (LayerDisabled, 2) := by
  constructor
  · decide
  · decide

/-- **C2.** `layer_move`'s loop deactivates the *target* layer `idx` instead
of the loop variable, so a previously active non-base layer survives
`Lmove`: pressing `B01 ↦ Lmove 2` in `cfgMove` (layer 1 active) leaves layer
1 `LayerActive` instead of deactivating it to `LayerPassthrough`. -/
theorem C2_layer_move_keeps_other_layers_active :
    (process_keyevent_press cfgMove (start cfgMove) B01 0).map
      (fun s => (statusOf s 1, statusOf s 2)) = some (LayerActive, LayerActive) := by
  decide

/-- **C5.** The long-press promotion of `Khtl` assigns
`LayerActiveUntilAnyKeyPress` to its target unconditionally, bypassing the
base-layer guards: with `B01 ↦ Khtl gA 0`, a press followed by a long press
past the threshold leaves layer 0 (the base layer) in status
`LayerActiveUntilAnyKeyPress`, not `LayerActive`. -/
theorem C5_khtl_breaks_base_layer_invariant :
    (runEvents cfgKhtl0 (start cfgKhtl0)
      [(.Pressed B01, 0), (.LongPress B01, 300)]).map (fun s => statusOf s 0) =
      some LayerActiveUntilAnyKeyPress ∧
    LayerActiveUntilAnyKeyPress ≠ LayerActive := by
  constructor
  · decide
  · decide

/-- **C6.** The same unconditional assignment activates a `LayerDisabled`
target: in `cfgKhtl1` layer 1 starts `LayerDisabled`, yet after a press of
`B01 ↦ Khtl gA 1` and a long press past the threshold its status is
`LayerActiveUntilAnyKeyPress` and it participates in resolution
(`get_active_layers` lists it). -/
theorem C6_khtl_long_press_activates_disabled_layer :
    statusOf (start cfgKhtl1) 1 = LayerDisabled ∧
    (runEvents cfgKhtl1 (start cfgKhtl1)
      [(.Pressed B01, 0), (.LongPress B01, 300)]).map
        (fun s => (statusOf s 1, get_active_layers s)) =
      some (LayerActiveUntilAnyKeyPress, [0, 1]) := by
  constructor
  · decide
  · decide

/-- **C3, counterexample.** With the single sequential group
`B01 ↦ Kg ⟨true, [10, 11], []⟩`, the pair `Pressed B01; Released B01` emits
downs `[10, 11]` and ups `[10, 11]` at `B01`, and `[10, 11]` is not the
reverse of `[10, 11]`: the claimed round-trip law fails for this
configuration. -/
theorem C3_counterexample_sequential_group :
    (runEvents cfgSeq (start cfgSeq)
      [(.Pressed B01, 0), (.Released B01, 5)]).map
        (fun s => (downsAt B01 s.emitted, upsAt B01 s.emitted)) =
      some ([10, 11], [10, 11]) ∧
    ([10, 11] : List Key) ≠ List.reverse [10, 11] := by
  constructor
  · decide
  · decide

/-- **C4, counterexample.** In `cfgPassDflt` the topmost active layer 1
resolves `B01` to `Pass`, but its `default_action` is the concrete group
`gA`: `get_key_event` returns layer 1's default action instead of resuming
at the lower active layer 0, whose resolution is `Kg gB`. -/
theorem C4_counterexample_nonpass_default :
    get_key_event cfgPassDflt (start cfgPassDflt) B01 = some (1, some (Kg gA)) ∧
    get_key_event_inheritance cfgPassDflt B01 0 = some (0, Kg gB) ∧
    Kg gA ≠ Kg gB := by
  refine ⟨by decide, by decide, by decide⟩

/-- **C7, counterexample.** One `analyze` call that detects two new presses
pushes `[Pressed 0, Pressed 1]`, and the first `next()` returns
`Pressed 1` — the event buffer is drained LIFO, not FIFO. -/
theorem C7_counterexample_lifo_drain :
    (cdAnalyze (fun _ => true) [0, 1] 0 CDState.empty).1.events =
      [CDEvent.Pressed 0, CDEvent.Pressed 1] ∧
    (cdNext (cdAnalyze (fun _ => true) [0, 1] 0 CDState.empty).1).1 =
      some (CDEvent.Pressed 1) := by
  refine ⟨by decide, by decide⟩

/-- **C8, counterexample.** `analyze` inserts *every* newly pressed button
into the tracked map: after `analyze({5}, 7)` with button 5 stateless, the
tracked state contains 5 (with record `(7, false)`), and `has_pressed()`
reports a press even though no stateful button is held. -/
theorem C8_counterexample_stateless_tracked :
    (cdAnalyze (fun _ => false) [5] 7 CDState.empty).1.state = [(5, (7, false))] ∧
    (fun _ => false : Nat → Bool) 5 = false ∧
    cdHasPressed (cdAnalyze (fun _ => false) [5] 7 CDState.empty).1 = true := by
  refine ⟨by decide, by decide, by decide⟩

/-! ### Change detector lemmas (C7, C8) -/

theorem cdDrainAux_reverse :
    ∀ (n : Nat) (st : List (Nat × (Time × Bool))) (l : List CDEvent),
      l.length ≤ n → cdDrainAux n ⟨st, l⟩ = l.reverse := by
  intro n
  induction n with
  | zero =>
    intro st l hl
    rw [Nat.le_zero, List.length_eq_zero] at hl
    subst hl
    rfl
  | succ n ih =>
    intro st l hl
    rcases List.eq_nil_or_concat l with rfl | ⟨l', e, rfl⟩
    · rfl
    · rw [List.concat_eq_append] at hl ⊢
      show cdDrainAux (n + 1) ⟨st, l' ++ [e]⟩ = (l' ++ [e]).reverse
      rw [cdDrainAux]
      simp only [cdNext, List.getLast?_concat, List.dropLast_concat]
      rw [ih st l' (by simp at hl; omega), List.reverse_append]
      rfl

/-- **C7, amended.** `next` drains the event buffer LIFO (`Vec::pop` takes
the newest element): repeatedly calling `next()` until exhaustion returns
the buffered events in the *reverse* of the order `analyze`/`tick` pushed
them. -/
theorem C7_next_drains_lifo (s : CDState) : cdDrain s = s.events.reverse := by
  obtain ⟨st, evs⟩ := s
  exact cdDrainAux_reverse evs.length st evs (Nat.le_refl _)

theorem cdLookup_isSome_mem {m : List (Nat × (Time × Bool))} {k : Nat}
    (h : (cdLookup m k).isSome) : k ∈ m.map (·.1) := by
  unfold cdLookup at h
  rw [Option.isSome_map'] at h
  obtain ⟨p, hp, hpk⟩ := List.find?_isSome.mp h
  exact List.mem_map.mpr ⟨p, hp, (by simpa using hpk)⟩

theorem cdInsert_keys_of_present {m : List (Nat × (Time × Bool))} {k : Nat}
    {v : Time × Bool} (h : (m.find? (fun p => p.1 = k)).isSome) :
    (cdInsert m k v).map (·.1) = m.map (·.1) := by
  simp only [cdInsert, h, if_pos]
  rw [List.map_map]
  refine List.map_congr_left ?_
  intro p _
  by_cases hpk : p.1 = k <;> simp [hpk]

theorem cdLongCheck_keys {t k press_t long_p st evs}
    (h : (cdLookup st k).isSome) :
    (cdLongCheck t k press_t long_p st evs).1.map (·.1) = st.map (·.1) := by
  have h' : (st.find? (fun p => p.1 = k)).isSome := by
    simpa [cdLookup, Option.isSome_map] using h
  unfold cdLongCheck
  split
  · split
    · exact cdInsert_keys_of_present h'
    · rfl
  · rfl

theorem cdPressStep_keys (hs : Nat → Bool) (t : Time)
    (acc : List (Nat × (Time × Bool)) × List CDEvent × Bool) (k : Nat) :
    (cdPressStep hs t acc k).1.map (·.1) = acc.1.map (·.1) := by
  unfold cdPressStep
  dsimp only
  split
  · next press_t long_p heq =>
    split
    · exact cdLongCheck_keys (by simp [heq])
    · rfl
  · rfl

theorem cdPressFold_keys (hs : Nat → Bool) (t : Time) :
    ∀ (input : List Nat) (acc : List (Nat × (Time × Bool)) × List CDEvent × Bool),
      ((input.foldl (cdPressStep hs t) acc).1).map (·.1) = acc.1.map (·.1) := by
  intro input
  induction input with
  | nil => intro acc; rfl
  | cons k l ih =>
    intro acc
    rw [List.foldl_cons, ih, cdPressStep_keys]

theorem cdInsertFold_mem (t : Time) :
    ∀ (l : List Nat) (st : List (Nat × (Time × Bool))) (b : Nat),
      b ∈ ((l.foldl (cdInsertNew t) st).map (·.1)) ↔ b ∈ st.map (·.1) ∨ b ∈ l := by
  intro l
  induction l with
  | nil => simp
  | cons k l ih =>
    intro st b
    rw [List.foldl_cons, ih]
    have hstep : b ∈ (cdInsertNew t st k).map (·.1) ↔ b ∈ st.map (·.1) ∨ b = k := by
      unfold cdInsertNew
      split
      · next h => simp
      · next h =>
        have hk : k ∈ st.map (·.1) := by
          cases hc : cdLookup st k with
          | none => exact absurd (by simp [hc]) h
          | some v => exact cdLookup_isSome_mem (by simp [hc])
        constructor
        · exact Or.inl
        · rintro (hb | rfl)
          · exact hb
          · exact hk
    rw [hstep]
    simp only [List.mem_cons]
    tauto

/-- **C8, amended.** After `analyze(input, t)` the tracked-state map
contains exactly the buttons of `input`, *stateless click buttons
included* (the insertion loop has no `has_state` check), so `has_pressed()`
and `tick()` also see held stateless buttons. -/
theorem C8_tracked_state_equals_input (hs : Nat → Bool) (cd : CDState)
    (input : List Nat) (t : Time) (b : Nat) :
    b ∈ ((cdAnalyze hs input t cd).1.state.map (·.1)) ↔ b ∈ input := by
  unfold cdAnalyze
  dsimp only
  rw [cdInsertFold_mem]
  constructor
  · rintro (hb | hb)
    · simp only [List.mem_map, List.mem_filter] at hb
      obtain ⟨p, ⟨_, hpin⟩, rfl⟩ := hb
      simpa using hpin
    · exact hb
  · exact Or.inr

/-! ### Inheritance walk lemmas (C10, C4) -/

theorem inhLoop_step_some {layers : Config} {coords : KeyCoords}
    {idx cur nxt : LayerId} {fuel : Nat}
    (h : inhStep layers coords cur = some nxt) :
    inhLoop layers coords idx cur (fuel + 1) = inhLoop layers coords idx nxt fuel := by
  unfold inhStep at h
  conv_lhs => rw [inhLoop]
  cases hc : (getLayer layers cur).get_key_event coords <;> simp [hc] at h ⊢
  rw [h]

theorem inhLoop_step_none {layers : Config} {coords : KeyCoords}
    (idx : LayerId) {cur : LayerId}
    (h : inhStep layers coords cur = none) :
    ∃ r, ∀ f, inhLoop layers coords idx cur (f + 1) = some r := by
  unfold inhStep at h
  cases hc : (getLayer layers cur).get_key_event coords
  case Inh =>
    simp [hc] at h
    refine ⟨(0, (getLayer layers cur).default_action), fun f => ?_⟩
    conv_lhs => rw [inhLoop]
    simp [hc, h]
  case Pass =>
    refine ⟨(0, (getLayer layers cur).default_action), fun f => ?_⟩
    conv_lhs => rw [inhLoop]
    simp [hc]
  all_goals
    refine ⟨(idx, (getLayer layers cur).get_key_event coords), fun f => ?_⟩
  all_goals conv_lhs => rw [inhLoop]
  all_goals simp [hc]

/-- **C10, amended.** `get_key_event_inheritance` terminates exactly on the
repetition-free `Inh` chains: (1) if the `Inh` chain from `cur` leaves the
inheritance regime within `k` steps, the loop returns (the fuelled walk is
`some` and independent of any fuel above `k`); (2) if the `Inh` links
reachable from `cur` stay inside a set `S` of layers whose every member is
an `Inh` cell with a parent in `S` (a cycle), the loop never returns — no
concrete action, not even `No`, is produced.  The source has no cycle
guard. -/
theorem C10_inh_cycle_diverges (layers : Config) (coords : KeyCoords) (idx : LayerId) :
    (∀ (k : Nat) (cur : LayerId), chainStops layers coords k cur = true →
      ∃ r, ∀ fuel, k < fuel → inhLoop layers coords idx cur fuel = some r) ∧
    (∀ (S : List LayerId) (cur : LayerId) (fuel : Nat), cur ∈ S →
      (∀ j ∈ S, ∃ j' ∈ S, inhStep layers coords j = some j') →
      inhLoop layers coords idx cur fuel = none) := by
  constructor
  · intro k
    induction k with
    | zero =>
      intro cur hstop
      have hnone : inhStep layers coords cur = none := by
        simpa [chainStops, Option.isNone_iff_eq_none] using hstop
      obtain ⟨r, hr⟩ := inhLoop_step_none idx hnone
      refine ⟨r, fun fuel hf => ?_⟩
      obtain ⟨f, rfl⟩ : ∃ f, fuel = f + 1 := ⟨fuel - 1, by omega⟩
      exact hr f
    | succ k ih =>
      intro cur hstop
      cases hs : inhStep layers coords cur with
      | none =>
        obtain ⟨r, hr⟩ := inhLoop_step_none idx hs
        refine ⟨r, fun fuel hf => ?_⟩
        obtain ⟨f, rfl⟩ : ∃ f, fuel = f + 1 := ⟨fuel - 1, by omega⟩
        exact hr f
      | some nxt =>
        have hstop' : chainStops layers coords k nxt = true := by
          simpa [chainStops, hs] using hstop
        obtain ⟨r, hr⟩ := ih nxt hstop'
        refine ⟨r, fun fuel hf => ?_⟩
        obtain ⟨f, rfl⟩ : ∃ f, fuel = f + 1 := ⟨fuel - 1, by omega⟩
        rw [inhLoop_step_some hs]
        exact hr f (by omega)
  · intro S cur fuel hcur hS
    induction fuel generalizing cur with
    | zero => rfl
    | succ f ih =>
      obtain ⟨j', hj', hstep⟩ := hS cur hcur
      rw [inhLoop_step_some hstep]
      exact ih j' hj'

theorem C10_inh_cycle_diverges_witness :
    (∃ r, ∀ fuel, 0 < fuel → inhLoop cfgCycle B01 0 0 fuel = some r) ∧
    inhLoop cfgCycle B01 1 1 7 = none :=
  ⟨(C10_inh_cycle_diverges cfgCycle B01 0).1 0 0 (by decide),
   (C10_inh_cycle_diverges cfgCycle B01 1).2 [1] 1 7 (by decide) (by decide)⟩

/-- **C10, counterexample.** In `cfgCycle` layer 1's cell at `B01` is `Inh`
and the layer inherits from itself: for *no* fuel does the resolution loop
return a value — resolution does not terminate on this configuration,
contradicting the claim. -/
theorem C10_counterexample_cycle_never_returns :
    ¬ ∃ (fuel : Nat) (r : LayerId × KeymapEvent),
      inhLoop cfgCycle B01 1 1 fuel = some r := by
  rintro ⟨fuel, r, h⟩
  have hall : ∀ f, inhLoop cfgCycle B01 1 1 f = none := by
    intro f
    induction f with
    | zero => rfl
    | succ n ih =>
      have hstep : inhStep cfgCycle B01 1 = some 1 := by decide
      rw [inhLoop_step_some hstep]
      exact ih
  rw [hall fuel] at h
  cases h

/-! ### Layer scanning (C4) -/

/-- Scanning from the top, every skipped layer above `i` is passed over. -/
theorem scanLayers_skip_above (layers : Config) (s : SwState) (coords : KeyCoords)
    (i : Nat) :
    ∀ n, i < n →
      (∀ k, i < k → k < n →
        statusOf s k = LayerDisabled ∨ statusOf s k = LayerPassthrough) →
      scanLayers layers s coords (List.range n).reverse =
        scanLayers layers s coords (i :: (List.range i).reverse) := by
  intro n
  induction n with
  | zero => intro hi _; omega
  | succ n ihn =>
    intro hi habove
    rw [List.range_succ, List.reverse_append]
    simp only [List.reverse_singleton, List.singleton_append]
    by_cases hni : n = i
    · subst hni; rfl
    · have hskip : statusOf s n = LayerDisabled ∨ statusOf s n = LayerPassthrough :=
        habove n (by omega) (by omega)
      rw [scanLayers, if_pos hskip]
      exact ihn (by omega) (fun k h1 h2 => habove k h1 (by omega))

/-- **C4, amended.** Let `i` be the topmost non-skipped layer and let its
inheritance walk return `(j, d)`.  The outer search resumes at the next
lower active layer *only* when `d` is `Pass` — which, for a `Pass` cell, is
the `default_action` of the layer where the walk stopped; for every other
value of that `default_action`, `get_key_event` returns it as layer `i`'s
resolution instead of consulting lower layers. -/
theorem C4_pass_resumes_only_when_default_pass (layers : Config) (s : SwState)
    (coords : KeyCoords) (i j : Nat) (d : KeymapEvent)
    (hi : i < s.stack.length)
    (habove : ∀ k, i < k → k < s.stack.length →
      statusOf s k = LayerDisabled ∨ statusOf s k = LayerPassthrough)
    (hact : ¬(statusOf s i = LayerDisabled ∨ statusOf s i = LayerPassthrough))
    (hres : get_key_event_inheritance layers coords i = some (j, d)) :
    (d ≠ Pass → get_key_event layers s coords = some (i, some d)) ∧
    (d = Pass → get_key_event layers s coords =
      scanLayers layers s coords (List.range i).reverse) := by
  have hmain : get_key_event layers s coords =
      scanLayers layers s coords (i :: (List.range i).reverse) := by
    unfold get_key_event
    exact scanLayers_skip_above layers s coords i s.stack.length hi habove
  rw [hmain, scanLayers, if_neg hact, hres]
  constructor
  · intro hd
    simp [hd]
  · intro hd
    simp [hd]

theorem C4_pass_resumes_only_when_default_pass_witness :
    get_key_event cfgPassDflt (start cfgPassDflt) B01 = some (1, some (Kg gA)) ∧
    get_key_event cfgPassPass (start cfgPassPass) B01 =
      scanLayers cfgPassPass (start cfgPassPass) B01 (List.range 1).reverse :=
  ⟨(C4_pass_resumes_only_when_default_pass cfgPassDflt (start cfgPassDflt) B01 1 0
      (Kg gA) (by decide)
      (by
        have hlen : (start cfgPassDflt).stack.length = 2 := by decide
        intro k h1 h2
        rw [hlen] at h2
        exact absurd h2 (by omega))
      (by decide) (by decide)).1 (by decide),
   (C4_pass_resumes_only_when_default_pass cfgPassPass (start cfgPassPass) B01 1 0
      Pass (by decide)
      (by
        have hlen : (start cfgPassPass).stack.length = 2 := by decide
        intro k h1 h2
        rw [hlen] at h2
        exact absurd h2 (by omega))
      (by decide) (by decide)).2 rfl⟩

/-! ### Key-group and press-table lemmas (C9) -/

theorem flatMap_singleton_map (l : List α) (f : α → β) :
    (l.flatMap fun x => [f x]) = l.map f := by
  induction l with
  | nil => rfl
  | cons a l ih => simp [ih]

theorem before_key_press_presses (layers : Config) (layer : LayerId) (s : SwState) :
    (before_key_press layers layer s).presses = s.presses := by
  unfold before_key_press
  split <;> rfl

theorem before_key_press_stack_same (layers : Config) (layer : LayerId) (s : SwState) :
    (before_key_press layers layer { s with presses := swapRemove s.presses i }) =
      { before_key_press layers layer s with presses := swapRemove s.presses i } := by
  unfold before_key_press
  simp only [activeKeysOf]
  split <;> rfl

theorem before_key_press_emitted (layers : Config) (layer : LayerId) (s : SwState) :
    (before_key_press layers layer s).emitted = s.emitted ++
      (if (getLayer layers layer).disable_active_on_press ∧ activeKeysOf s layer then
        (getLayer layers layer).on_active_keys.reverse.map
          (fun k => (⟨LAYER_KEY, k, false⟩ : Emit))
      else []) := by
  unfold before_key_press
  split
  · rfl
  · simp

/-- `keygroup_press` of a chord (non-sequential group) without force-click:
suppress the active keys if configured, release the mask, press the keys,
record a `Reverse` press entry. -/
theorem keygroup_press_chord (layers : Config) (kg : KeyGroup) (coords : KeyCoords)
    (srclayer : LayerId) (t : Time) (s : SwState) (hseq : kg.sequential = false) :
    keygroup_press layers kg coords srclayer t false s =
      { before_key_press layers srclayer s with
        presses := (before_key_press layers srclayer s).presses ++
          [⟨srclayer, coords, Reverse, some kg, t⟩],
        emitted := (before_key_press layers srclayer s).emitted ++
          kg.mask.map (fun k => (⟨coords, k, false⟩ : Emit)) ++
          kg.keys.map (fun k => (⟨coords, k, true⟩ : Emit)) } := by
  unfold keygroup_press
  simp [hseq, emitList, flatMap_singleton_map, List.append_assoc]

theorem find_press_no_match_append_aux (coords : KeyCoords) (b : PressRec)
    (hb : b.coords = coords) :
    ∀ (A : List PressRec) (n : Nat), (∀ p ∈ A, p.coords ≠ coords) →
      ((A ++ [b]).enumFrom n).find? (fun p => p.2.coords = coords) =
        some (n + A.length, b) := by
  intro A
  induction A with
  | nil =>
    intro n _
    simp [hb]
  | cons a A ih =>
    intro n hA
    rw [List.cons_append, List.enumFrom_cons]
    rw [List.find?_cons_of_neg _ (by simpa using hA a (List.mem_cons_self a A))]
    rw [ih (n + 1) (fun p hp => hA p (List.mem_cons_of_mem a hp))]
    have : n + 1 + A.length = n + (A.length + 1) := by omega
    simp [this]

theorem find_press_no_match_append (coords : KeyCoords) (b : PressRec)
    (A : List PressRec) (hA : ∀ p ∈ A, p.coords ≠ coords) (hb : b.coords = coords) :
    find_press (A ++ [b]) coords = some (A.length, b) := by
  unfold find_press
  unfold List.enum
  simpa using find_press_no_match_append_aux coords b hb A 0 hA

/-- **C9.** A `Klong` press record in `ForceClick` mode, hit by a long-press
event strictly past the threshold, is promoted exactly once: the record is
removed, the long group is emitted as a held chord (mask released, keys
pressed, after the optional active-key suppression) and re-recorded in
`Reverse` mode at the promotion time; every further `LongPress` event at
that coordinate returns the state unchanged. -/
theorem C9_klong_promotes_once (layers : Config) (s : SwState) (coords : KeyCoords)
    (t : Time) (i : Nat) (press : PressRec) (kgS kgL : KeyGroup)
    (hfind : find_press s.presses coords = some (i, press))
    (hmode : press.mode = ForceClick)
    (hcell : (getLayer layers press.layer).get_key_event coords = Klong kgS kgL)
    (hseq : kgL.sequential = false)
    (ht : HOLD_THRESHOLD_MS < t - press.t)
    (hclean : ∀ p ∈ swapRemove s.presses i, p.coords ≠ coords) :
    (process_keyevent_long_press layers s coords t).presses =
      swapRemove s.presses i ++ [⟨press.layer, coords, Reverse, some kgL, t⟩] ∧
    (process_keyevent_long_press layers s coords t).emitted =
      s.emitted ++
        (if (getLayer layers press.layer).disable_active_on_press ∧
            activeKeysOf s press.layer then
          (getLayer layers press.layer).on_active_keys.reverse.map
            (fun k => (⟨LAYER_KEY, k, false⟩ : Emit))
        else []) ++
        kgL.mask.map (fun k => (⟨coords, k, false⟩ : Emit)) ++
        kgL.keys.map (fun k => (⟨coords, k, true⟩ : Emit)) ∧
    ∀ t2, process_keyevent_long_press layers
        (process_keyevent_long_press layers s coords t) coords t2 =
      process_keyevent_long_press layers s coords t := by
  have hthr : ¬(t - press.t ≤ HOLD_THRESHOLD_MS) := Nat.not_le.mpr ht
  have hrun : process_keyevent_long_press layers s coords t =
      keygroup_press layers kgL coords press.layer t false
        { s with presses := swapRemove s.presses i } := by
    unfold process_keyevent_long_press
    rw [hfind]
    simp only [hthr, if_false, ite_false]
    rw [hcell]
    simp [hmode]
  have hpresses : (process_keyevent_long_press layers s coords t).presses =
      swapRemove s.presses i ++ [⟨press.layer, coords, Reverse, some kgL, t⟩] := by
    rw [hrun, keygroup_press_chord layers kgL coords press.layer t _ hseq]
    simp [before_key_press_presses]
  refine ⟨hpresses, ?_, ?_⟩
  · rw [hrun, keygroup_press_chord layers kgL coords press.layer t _ hseq]
    simp only [before_key_press_stack_same]
    rw [before_key_press_emitted]
  · intro t2
    have hfind2 : find_press (process_keyevent_long_press layers s coords t).presses
        coords = some ((swapRemove s.presses i).length,
          ⟨press.layer, coords, Reverse, some kgL, t⟩) := by
      rw [hpresses]
      exact find_press_no_match_append coords _ _ hclean rfl
    conv_lhs => rw [process_keyevent_long_press]
    rw [hfind2]
    by_cases h2 : t2 - t ≤ HOLD_THRESHOLD_MS
    · simp [h2]
    · simp only [h2, if_false, ite_false]
      rw [hcell]
      simp

theorem C9_klong_promotes_once_witness :
    (process_keyevent_long_press cfgKlong sKlong B01 300).presses =
      swapRemove sKlong.presses 0 ++ [⟨0, B01, Reverse, some gLong, 300⟩] ∧
    process_keyevent_long_press cfgKlong
      (process_keyevent_long_press cfgKlong sKlong B01 300) B01 600 =
      process_keyevent_long_press cfgKlong sKlong B01 300 :=
  ⟨(C9_klong_promotes_once cfgKlong sKlong B01 300 0 ⟨0, B01, ForceClick, some gA, 0⟩
      gA gLong (by decide) rfl (by decide) rfl (by decide) (by decide)).1,
   (C9_klong_promotes_once cfgKlong sKlong B01 300 0 ⟨0, B01, ForceClick, some gA, 0⟩
      gA gLong (by decide) rfl (by decide) rfl (by decide) (by decide)).2.2 600⟩

/-! ### Chord-configuration basics (C3) -/

theorem get_key_event_mem_allCells (l : Layer) (coords : KeyCoords) :
    l.get_key_event coords ∈ l.allCells := by
  unfold Layer.get_key_event Layer.allCells
  split
  · exact List.mem_cons_self _ _
  next block hb =>
    split
    · exact List.mem_cons_self _ _
    next row hr =>
      split
      · exact List.mem_cons_self _ _
      next ev hc =>
        refine List.mem_cons_of_mem _ (List.mem_flatMap.mpr ⟨block, ?_, ?_⟩)
        · exact List.get?_mem hb
        · exact List.mem_flatMap.mpr ⟨row, List.get?_mem hr, by simpa using List.get?_mem hc⟩

theorem default_action_mem_allCells (l : Layer) : l.default_action ∈ l.allCells :=
  List.mem_cons_self _ _

theorem chord_on_active_keys {layers : Config} (h : chordConfig layers) (idx : LayerId) :
    (getLayer layers idx).on_active_keys = [] := by
  unfold getLayer
  by_cases hlt : idx < layers.length
  · rw [List.getD_eq_getElem?_getD, List.getElem?_eq_getElem hlt]
    exact (h _ (List.getElem_mem hlt)).1
  · rw [List.getD_eq_getElem?_getD, List.getElem?_eq_none (Nat.le_of_not_lt hlt)]
    rfl

theorem chord_cells {layers : Config} (h : chordConfig layers) (idx : LayerId)
    (ev : KeymapEvent) (hev : ev ∈ (getLayer layers idx).allCells) :
    ∀ kg ∈ ev.keygroups, kg.sequential = false := by
  unfold getLayer at hev
  by_cases hlt : idx < layers.length
  · rw [List.getD_eq_getElem?_getD, List.getElem?_eq_getElem hlt] at hev
    exact (h _ (List.getElem_mem hlt)).2.2 ev hev
  · rw [List.getD_eq_getElem?_getD, List.getElem?_eq_none (Nat.le_of_not_lt hlt)] at hev
    simp only [Option.getD_none] at hev
    have hNo : ev = No := by simpa [defaultLayer, Layer.allCells] using hev
    subst hNo
    intro kg hkg
    cases hkg

theorem chord_start_inert {layers : Config} (h : chordConfig layers) :
    ∀ e ∈ (start layers).stack, InertEntry e := by
  intro e he
  unfold start at he
  simp only at he
  rcases List.mem_or_eq_of_mem_set he with he' | rfl
  · obtain ⟨l, hl, rfl⟩ := List.mem_map.mp he'
    exact (h l hl).2.1
  · exact Or.inl rfl

theorem statusOf_setActiveKeys (s : SwState) (i : LayerId) (b : Bool) (k : LayerId) :
    statusOf (setActiveKeys s i b) k = statusOf s k := by
  unfold statusOf setActiveKeys
  simp only [List.getD_eq_getElem?_getD]
  by_cases hlen : i < s.stack.length
  · by_cases hk : i = k
    · subst hk
      rw [List.getElem?_set_self hlen, List.getElem?_eq_getElem hlen]
      rfl
    · rw [List.getElem?_set_ne hk]
  · rw [List.set_eq_of_length_le (Nat.le_of_not_lt hlen)]

theorem snd_mem_of_mem_enumFrom {l : List α} :
    ∀ {n : Nat} {p : Nat × α}, p ∈ l.enumFrom n → p.2 ∈ l := by
  induction l with
  | nil => intro n p h; cases h
  | cons a l ih =>
    intro n p h
    rw [List.enumFrom_cons] at h
    rcases List.mem_cons.mp h with rfl | h'
    · exact List.mem_cons_self _ _
    · exact List.mem_cons_of_mem _ (ih h')

/-! ### Layer-operation shapes under empty `on_active_keys` (C3) -/

theorem getD_set_self' (l : List α) (i : Nat) (x d : α) (h : i < l.length) :
    (l.set i x).getD i d = x := by
  rw [List.getD_eq_getElem?_getD, List.getElem?_set_self h]
  rfl

theorem statusOf_lt_of_ne_disabled {s : SwState} {idx : LayerId}
    (h : statusOf s idx ≠ LayerDisabled) : idx < s.stack.length := by
  by_contra hlt
  unfold statusOf at h
  rw [List.getD_eq_getElem?_getD, List.getElem?_eq_none (Nat.le_of_not_lt hlt)] at h
  exact h rfl

theorem inert_getD {l : List LayerStackEntry} (hl : ∀ e ∈ l, InertEntry e) (i : Nat) :
    InertEntry (l.getD i defaultEntry) := by
  rw [List.getD_eq_getElem?_getD]
  cases hx : l[i]? with
  | none => exact Or.inr (Or.inr rfl)
  | some e => exact hl e (List.getElem?_mem hx)

theorem setStatus_inert {s : SwState} {idx : LayerId} {st : LayerStatus}
    (hst : st = LayerActive ∨ st = LayerPassthrough ∨ st = LayerDisabled)
    (hs : ∀ e ∈ s.stack, InertEntry e) :
    ∀ e ∈ (setStatus s idx st).stack, InertEntry e := by
  intro e he
  rcases List.mem_or_eq_of_mem_set he with he' | rfl
  · exact hs e he'
  · exact hst

theorem setActiveKeys_inert {s : SwState} {idx : LayerId} {b : Bool}
    (hs : ∀ e ∈ s.stack, InertEntry e) :
    ∀ e ∈ (setActiveKeys s idx b).stack, InertEntry e := by
  intro e he
  rcases List.mem_or_eq_of_mem_set he with he' | rfl
  · exact hs e he'
  · exact inert_getD hs idx

theorem on_layer_activation_eq {layers : Config}
    (hOA : ∀ idx, (getLayer layers idx).on_active_keys = []) (idx : LayerId) (s : SwState) :
    on_layer_activation layers idx s = setActiveKeys s idx true := by
  unfold on_layer_activation emitList
  rw [hOA idx]
  simp

theorem on_layer_deactivation_eq {layers : Config}
    (hOA : ∀ idx, (getLayer layers idx).on_active_keys = []) (idx : LayerId) (s : SwState) :
    on_layer_deactivation layers idx s = s := by
  unfold on_layer_deactivation emitList
  rw [hOA idx]
  split <;> simp

theorem layer_deactivate_eq {layers : Config}
    (hOA : ∀ idx, (getLayer layers idx).on_active_keys = []) (idx : LayerId) (s : SwState) :
    layer_deactivate layers idx s = s ∨
      layer_deactivate layers idx s = setStatus s idx LayerPassthrough := by
  unfold layer_deactivate
  split
  · exact Or.inl rfl
  split
  · exact Or.inl rfl
  split
  · exact Or.inl rfl
  rw [on_layer_deactivation_eq hOA]
  exact Or.inr rfl

theorem layer_disable_eq {layers : Config}
    (hOA : ∀ idx, (getLayer layers idx).on_active_keys = []) (idx : LayerId) (s : SwState) :
    layer_disable layers idx s = s ∨
      layer_disable layers idx s = setStatus s idx LayerDisabled ∨
      layer_disable layers idx s =
        setStatus (setStatus s idx LayerPassthrough) idx LayerDisabled := by
  unfold layer_disable
  split
  · exact Or.inl rfl
  split
  · exact Or.inl rfl
  split
  · rcases layer_deactivate_eq hOA idx s with h | h <;> rw [h]
    · exact Or.inr (Or.inl rfl)
    · exact Or.inr (Or.inr rfl)
  · exact Or.inr (Or.inl rfl)

theorem layer_activate_eq {layers : Config}
    (hOA : ∀ idx, (getLayer layers idx).on_active_keys = []) (idx : LayerId) (s : SwState) :
    layer_activate layers idx s = s ∨
      layer_activate layers idx s =
        setActiveKeys (setStatus s idx LayerActive) idx true := by
  unfold layer_activate
  split
  · exact Or.inl rfl
  split
  · exact Or.inl rfl
  rw [on_layer_activation_eq hOA]
  exact Or.inr rfl

theorem quiet_setStatus (s : SwState) (i : LayerId) (st : LayerStatus) :
    (setStatus s i st).emitted = s.emitted ∧ (setStatus s i st).presses = s.presses :=
  ⟨rfl, rfl⟩

theorem quiet_setActiveKeys (s : SwState) (i : LayerId) (b : Bool) :
    (setActiveKeys s i b).emitted = s.emitted ∧ (setActiveKeys s i b).presses = s.presses :=
  ⟨rfl, rfl⟩

theorem quiet_layer_deactivate {layers : Config}
    (hOA : ∀ idx, (getLayer layers idx).on_active_keys = []) (idx : LayerId) (s : SwState) :
    (layer_deactivate layers idx s).emitted = s.emitted ∧
    (layer_deactivate layers idx s).presses = s.presses := by
  rcases layer_deactivate_eq hOA idx s with h | h <;> rw [h] <;> exact ⟨rfl, rfl⟩

theorem quiet_layer_disable {layers : Config}
    (hOA : ∀ idx, (getLayer layers idx).on_active_keys = []) (idx : LayerId) (s : SwState) :
    (layer_disable layers idx s).emitted = s.emitted ∧
    (layer_disable layers idx s).presses = s.presses := by
  rcases layer_disable_eq hOA idx s with h | h | h <;> rw [h] <;> exact ⟨rfl, rfl⟩

theorem quiet_layer_activate {layers : Config}
    (hOA : ∀ idx, (getLayer layers idx).on_active_keys = []) (idx : LayerId) (s : SwState) :
    (layer_activate layers idx s).emitted = s.emitted ∧
    (layer_activate layers idx s).presses = s.presses := by
  rcases layer_activate_eq hOA idx s with h | h <;> rw [h] <;> exact ⟨rfl, rfl⟩

theorem inert_layer_deactivate {layers : Config}
    (hOA : ∀ idx, (getLayer layers idx).on_active_keys = []) (idx : LayerId) {s : SwState}
    (hs : ∀ e ∈ s.stack, InertEntry e) :
    ∀ e ∈ (layer_deactivate layers idx s).stack, InertEntry e := by
  rcases layer_deactivate_eq hOA idx s with h | h <;> rw [h]
  · exact hs
  · exact setStatus_inert (Or.inr (Or.inl rfl)) hs

theorem inert_layer_disable {layers : Config}
    (hOA : ∀ idx, (getLayer layers idx).on_active_keys = []) (idx : LayerId) {s : SwState}
    (hs : ∀ e ∈ s.stack, InertEntry e) :
    ∀ e ∈ (layer_disable layers idx s).stack, InertEntry e := by
  rcases layer_disable_eq hOA idx s with h | h | h <;> rw [h]
  · exact hs
  · exact setStatus_inert (Or.inr (Or.inr rfl)) hs
  · exact setStatus_inert (Or.inr (Or.inr rfl))
      (setStatus_inert (Or.inr (Or.inl rfl)) hs)

theorem inert_layer_activate {layers : Config}
    (hOA : ∀ idx, (getLayer layers idx).on_active_keys = []) (idx : LayerId) {s : SwState}
    (hs : ∀ e ∈ s.stack, InertEntry e) :
    ∀ e ∈ (layer_activate layers idx s).stack, InertEntry e := by
  rcases layer_activate_eq hOA idx s with h | h <;> rw [h]
  · exact hs
  · exact setActiveKeys_inert (setStatus_inert (Or.inl rfl) hs)

theorem quiet_layer_move {layers : Config}
    (hOA : ∀ idx, (getLayer layers idx).on_active_keys = []) (idx : LayerId) (s : SwState) :
    (layer_move layers idx s).emitted = s.emitted ∧
    (layer_move layers idx s).presses = s.presses := by
  unfold layer_move
  split
  · exact ⟨rfl, rfl⟩
  have hfold : ∀ (L : List Nat) (acc : SwState),
      ((L.foldl (fun acc l_idx =>
        if idx = l_idx then acc else layer_deactivate layers idx acc) acc).emitted
          = acc.emitted ∧
       (L.foldl (fun acc l_idx =>
        if idx = l_idx then acc else layer_deactivate layers idx acc) acc).presses
          = acc.presses) := by
    intro L
    induction L with
    | nil => intro acc; exact ⟨rfl, rfl⟩
    | cons a L ih =>
      intro acc
      rw [List.foldl_cons]
      rcases ih (if idx = a then acc else layer_deactivate layers idx acc) with ⟨h1, h2⟩
      refine ⟨h1.trans ?_, h2.trans ?_⟩ <;> split <;>
        first
          | rfl
          | exact (quiet_layer_deactivate hOA idx acc).1
          | exact (quiet_layer_deactivate hOA idx acc).2
  rcases hfold (List.range s.stack.length) s with ⟨h1, h2⟩
  rcases quiet_layer_activate hOA idx
      ((List.range s.stack.length).foldl (fun acc l_idx =>
        if idx = l_idx then acc else layer_deactivate layers idx acc) s) with ⟨h3, h4⟩
  exact ⟨h3.trans h1, h4.trans h2⟩

theorem inert_layer_move {layers : Config}
    (hOA : ∀ idx, (getLayer layers idx).on_active_keys = []) (idx : LayerId) {s : SwState}
    (hs : ∀ e ∈ s.stack, InertEntry e) :
    ∀ e ∈ (layer_move layers idx s).stack, InertEntry e := by
  unfold layer_move
  split
  · exact hs
  refine inert_layer_activate hOA idx ?_
  have hfold : ∀ (L : List Nat) (acc : SwState), (∀ e ∈ acc.stack, InertEntry e) →
      ∀ e ∈ (L.foldl (fun acc l_idx =>
        if idx = l_idx then acc else layer_deactivate layers idx acc) acc).stack,
        InertEntry e := by
    intro L
    induction L with
    | nil => intro acc hacc; exact hacc
    | cons a L ih =>
      intro acc hacc
      rw [List.foldl_cons]
      refine ih _ ?_
      split
      · exact hacc
      · exact inert_layer_deactivate hOA idx hacc
  exact hfold _ s hs

theorem layer_hold_eq {layers : Config}
    (hOA : ∀ idx, (getLayer layers idx).on_active_keys = []) (idx : LayerId)
    (coords : KeyCoords) (s : SwState) :
    layer_hold layers idx coords s = s ∨
      (idx < s.stack.length ∧ layer_hold layers idx coords s =
        { s with stack := s.stack.set idx ⟨LayerActiveUntilKeyRelease coords, true⟩ }) := by
  unfold layer_hold
  split
  · exact Or.inl rfl
  next hdis =>
    split
    · exact Or.inl rfl
    next hpass =>
      rw [on_layer_activation_eq hOA]
      have hlt : idx < s.stack.length := statusOf_lt_of_ne_disabled hdis
      refine Or.inr ⟨hlt, ?_⟩
      unfold setActiveKeys setStatus
      simp only
      rw [getD_set_self' _ _ _ _ (by simpa using hlt), List.set_set]

theorem layer_tap_eq {layers : Config}
    (hOA : ∀ idx, (getLayer layers idx).on_active_keys = []) (idx : LayerId)
    (coords : KeyCoords) (s : SwState) :
    layer_tap layers idx coords s = s ∨
      (idx < s.stack.length ∧ layer_tap layers idx coords s =
        { s with stack := s.stack.set idx ⟨LayerActiveUntilKeyReleaseTap coords, true⟩ }) := by
  unfold layer_tap
  split
  · exact Or.inl rfl
  next hdis =>
    split
    · exact Or.inl rfl
    next hpass =>
      rw [on_layer_activation_eq hOA]
      have hlt : idx < s.stack.length := statusOf_lt_of_ne_disabled hdis
      refine Or.inr ⟨hlt, ?_⟩
      unfold setActiveKeys setStatus
      simp only
      rw [getD_set_self' _ _ _ _ (by simpa using hlt), List.set_set]

theorem layer_hold_tap_eq {layers : Config}
    (hOA : ∀ idx, (getLayer layers idx).on_active_keys = []) (idx idx2 : LayerId)
    (coords : KeyCoords) (t : Time) (s : SwState) :
    layer_hold_tap layers idx idx2 coords t s = s ∨
      (idx < s.stack.length ∧ layer_hold_tap layers idx idx2 coords t s =
        { s with stack := s.stack.set idx ⟨LayerHoldAndTapToL coords t idx2, true⟩ }) := by
  unfold layer_hold_tap
  split
  · exact Or.inl rfl
  next hdis =>
    split
    · exact Or.inl rfl
    next hpass =>
      rw [on_layer_activation_eq hOA]
      have hlt : idx < s.stack.length := statusOf_lt_of_ne_disabled hdis
      refine Or.inr ⟨hlt, ?_⟩
      unfold setActiveKeys setStatus
      simp only
      rw [getD_set_self' _ _ _ _ (by simpa using hlt), List.set_set]

theorem layer_hold_key_eq {layers : Config}
    (hOA : ∀ idx, (getLayer layers idx).on_active_keys = []) (activate_idx : LayerId)
    (coords : KeyCoords) (t : Time) (key_layer : LayerId) (s : SwState) :
    layer_hold_key layers activate_idx coords t key_layer s = s ∨
      (activate_idx < s.stack.length ∧ layer_hold_key layers activate_idx coords t key_layer s =
        { s with stack :=
            s.stack.set activate_idx ⟨LayerHoldAndTapKey coords t key_layer, true⟩ }) := by
  unfold layer_hold_key
  split
  · exact Or.inl rfl
  next hdis =>
    split
    · exact Or.inl rfl
    next hpass =>
      rw [on_layer_activation_eq hOA]
      have hlt : activate_idx < s.stack.length := statusOf_lt_of_ne_disabled hdis
      refine Or.inr ⟨hlt, ?_⟩
      unfold setActiveKeys setStatus
      simp only
      rw [getD_set_self' _ _ _ _ (by simpa using hlt), List.set_set]

/-! ### Fold lemmas for the post-press and release passes (C3) -/

theorem retireTap_id {layers : Config} {s : SwState}
    (h : ∀ e ∈ s.stack, e.status ≠ LayerActiveUntilAnyKeyPress) :
    retireTapLayers layers s = s := by
  unfold retireTapLayers
  have hgen : ∀ (L : List (Nat × LayerStackEntry)) (acc : SwState),
      (∀ p ∈ L, p.2.status ≠ LayerActiveUntilAnyKeyPress) →
      L.foldl (fun acc p =>
        if p.2.status = LayerActiveUntilAnyKeyPress then layer_disable layers p.1 acc
        else acc) acc = acc := by
    intro L
    induction L with
    | nil => intro acc _; rfl
    | cons p L ih =>
      intro acc hL
      rw [List.foldl_cons, if_neg (hL p (List.mem_cons_self p L))]
      exact ih acc (fun q hq => hL q (List.mem_cons_of_mem p hq))
  refine hgen _ s ?_
  intro p hp
  exact h p.2 (snd_mem_of_mem_enumFrom hp)

theorem releaseStep_inert {layers : Config} {coords : KeyCoords} {t : Time}
    {p : Nat × LayerStackEntry} (hp : InertEntry p.2) (acc : SwState) :
    releaseStep layers coords t acc p = acc := by
  obtain ⟨i, e⟩ := p
  obtain ⟨st, ak⟩ := e
  rcases hp with h | h | h <;> (simp only at h; subst h; rfl)

theorem fold_release_inert {layers : Config} {coords : KeyCoords} {t : Time} :
    ∀ (L : List (Nat × LayerStackEntry)) (acc : SwState),
      (∀ p ∈ L, InertEntry p.2) →
      L.foldl (releaseStep layers coords t) acc = acc := by
  intro L
  induction L with
  | nil => intro acc _; rfl
  | cons p L ih =>
    intro acc hL
    rw [List.foldl_cons, releaseStep_inert (hL p (List.mem_cons_self p L))]
    exact ih acc (fun q hq => hL q (List.mem_cons_of_mem p hq))

theorem fold_release_enumFrom_set {layers : Config} {coords : KeyCoords} {t : Time} :
    ∀ (l : List LayerStackEntry) (m : Nat) (e : LayerStackEntry) (n : Nat) (acc : SwState),
      m < l.length → (∀ e' ∈ l, InertEntry e') →
      ((l.set m e).enumFrom n).foldl (releaseStep layers coords t) acc =
        releaseStep layers coords t acc (n + m, e) := by
  intro l
  induction l with
  | nil => intro m e n acc hm _; exact absurd hm (Nat.not_lt_zero m)
  | cons a l ih =>
    intro m e n acc hm hl
    cases m with
    | zero =>
      rw [List.set_cons_zero, List.enumFrom_cons, List.foldl_cons]
      rw [fold_release_inert _ _
        (fun q hq => hl q.2 (List.mem_cons_of_mem a (snd_mem_of_mem_enumFrom hq)))]
      rfl
    | succ m =>
      rw [List.set_cons_succ, List.enumFrom_cons, List.foldl_cons,
        releaseStep_inert (hl a (List.mem_cons_self a l))]
      rw [ih m e (n + 1) acc (by simpa using hm)
        (fun q hq => hl q (List.mem_cons_of_mem a hq))]
      have : n + 1 + m = n + (m + 1) := by omega
      rw [this]

/-! ### Key-group emission shapes under empty `on_active_keys` (C3) -/

theorem bkp_emitted_nil {layers : Config}
    (hOA : ∀ idx, (getLayer layers idx).on_active_keys = []) (l : LayerId) (s : SwState) :
    (before_key_press layers l s).emitted = s.emitted := by
  rw [before_key_press_emitted, hOA l]
  simp

theorem bkp_statusOf (layers : Config) (l : LayerId) (s : SwState) (k : LayerId) :
    statusOf (before_key_press layers l s) k = statusOf s k := by
  unfold before_key_press
  split
  · exact statusOf_setActiveKeys _ _ _ _
  · rfl

theorem bkp_inert {layers : Config} {l : LayerId} {s : SwState}
    (hs : ∀ e ∈ s.stack, InertEntry e) :
    ∀ e ∈ (before_key_press layers l s).stack, InertEntry e := by
  unfold before_key_press
  split
  · exact setActiveKeys_inert hs
  · exact hs

theorem akr_eq {layers : Config}
    (hOA : ∀ idx, (getLayer layers idx).on_active_keys = []) (l : LayerId) (s : SwState) :
    after_key_release layers l s = s ∨
      after_key_release layers l s = setActiveKeys s l true := by
  unfold after_key_release
  split
  · exact Or.inl rfl
  split
  · exact Or.inl rfl
  split
  · exact Or.inl rfl
  rw [hOA l]
  right
  simp [emitList]

theorem akr_quiet {layers : Config}
    (hOA : ∀ idx, (getLayer layers idx).on_active_keys = []) (l : LayerId) (s : SwState) :
    (after_key_release layers l s).emitted = s.emitted ∧
    (after_key_release layers l s).presses = s.presses := by
  rcases akr_eq hOA l s with h | h <;> rw [h] <;> exact ⟨rfl, rfl⟩

theorem akr_statusOf {layers : Config}
    (hOA : ∀ idx, (getLayer layers idx).on_active_keys = []) (l : LayerId) (s : SwState)
    (k : LayerId) :
    statusOf (after_key_release layers l s) k = statusOf s k := by
  rcases akr_eq hOA l s with h | h
  · rw [h]
  · rw [h]
    exact statusOf_setActiveKeys _ _ _ _

theorem akr_inert {layers : Config}
    (hOA : ∀ idx, (getLayer layers idx).on_active_keys = []) (l : LayerId) {s : SwState}
    (hs : ∀ e ∈ s.stack, InertEntry e) :
    ∀ e ∈ (after_key_release layers l s).stack, InertEntry e := by
  rcases akr_eq hOA l s with h | h <;> rw [h]
  · exact hs
  · exact setActiveKeys_inert hs

theorem keygroup_press_chord_components {layers : Config}
    (hOA : ∀ idx, (getLayer layers idx).on_active_keys = []) (kg : KeyGroup)
    (coords : KeyCoords) (srclayer : LayerId) (t : Time) (s : SwState)
    (hseq : kg.sequential = false) :
    (keygroup_press layers kg coords srclayer t false s).emitted =
      s.emitted ++ kg.mask.map (fun k => (⟨coords, k, false⟩ : Emit)) ++
        kg.keys.map (fun k => (⟨coords, k, true⟩ : Emit)) ∧
    (keygroup_press layers kg coords srclayer t false s).presses =
      s.presses ++ [⟨srclayer, coords, Reverse, some kg, t⟩] ∧
    ((∀ e ∈ s.stack, InertEntry e) →
      ∀ e ∈ (keygroup_press layers kg coords srclayer t false s).stack, InertEntry e) := by
  rw [keygroup_press_chord layers kg coords srclayer t s hseq]
  refine ⟨?_, ?_, ?_⟩
  · simp only [bkp_emitted_nil hOA, List.append_assoc]
  · simp only [before_key_press_presses]
  · intro hs e he
    exact bkp_inert hs e he

theorem keygroup_press_click_eq (layers : Config) (kg : KeyGroup) (coords : KeyCoords)
    (srclayer : LayerId) (t : Time) (s : SwState) (hseq : kg.sequential = false) :
    keygroup_press layers kg coords srclayer t true s =
      after_key_release layers srclayer
        { before_key_press layers srclayer s with
          emitted := (before_key_press layers srclayer s).emitted ++
            kg.mask.map (fun k => (⟨coords, k, false⟩ : Emit)) ++
            kg.keys.map (fun k => (⟨coords, k, true⟩ : Emit)) ++
            kg.keys.reverse.map (fun k => (⟨coords, k, false⟩ : Emit)) ++
            kg.mask.reverse.map (fun k => (⟨coords, k, true⟩ : Emit)) } := by
  unfold keygroup_press
  simp [hseq, emitList, flatMap_singleton_map, List.append_assoc]

theorem keygroup_press_click_components {layers : Config}
    (hOA : ∀ idx, (getLayer layers idx).on_active_keys = []) (kg : KeyGroup)
    (coords : KeyCoords) (srclayer : LayerId) (t : Time) (s : SwState)
    (hseq : kg.sequential = false) :
    (keygroup_press layers kg coords srclayer t true s).emitted =
      s.emitted ++ kg.mask.map (fun k => (⟨coords, k, false⟩ : Emit)) ++
        kg.keys.map (fun k => (⟨coords, k, true⟩ : Emit)) ++
        kg.keys.reverse.map (fun k => (⟨coords, k, false⟩ : Emit)) ++
        kg.mask.reverse.map (fun k => (⟨coords, k, true⟩ : Emit)) ∧
    (keygroup_press layers kg coords srclayer t true s).presses = s.presses ∧
    ((∀ e ∈ s.stack, InertEntry e) →
      ∀ e ∈ (keygroup_press layers kg coords srclayer t true s).stack, InertEntry e) := by
  rw [keygroup_press_click_eq layers kg coords srclayer t s hseq]
  refine ⟨?_, ?_, ?_⟩
  · rw [(akr_quiet hOA srclayer _).1]
    simp only [bkp_emitted_nil hOA, List.append_assoc]
  · rw [(akr_quiet hOA srclayer _).2]
    simp only [before_key_press_presses]
  · intro hs
    refine akr_inert hOA srclayer ?_
    intro e he
    exact bkp_inert hs e he

theorem keygroup_release_components {layers : Config}
    (hOA : ∀ idx, (getLayer layers idx).on_active_keys = []) (kg : KeyGroup)
    (coords : KeyCoords) (srclayer : LayerId) (s : SwState)
    (hseq : kg.sequential = false) :
    (keygroup_release layers kg coords srclayer s).emitted =
      s.emitted ++ kg.keys.reverse.map (fun k => (⟨coords, k, false⟩ : Emit)) ++
        kg.mask.reverse.map (fun k => (⟨coords, k, true⟩ : Emit)) ∧
    (keygroup_release layers kg coords srclayer s).presses = s.presses := by
  unfold keygroup_release
  rw [if_neg (by simp [hseq])]
  constructor
  · rw [(akr_quiet hOA srclayer _).1]
    simp [emitList, List.append_assoc]
  · rw [(akr_quiet hOA srclayer _).2]
    rfl

/-! ### The resolved action only references chord groups (C3) -/

theorem inhLoop_ret_none {layers : Config} {coords : KeyCoords} (idx : LayerId)
    {cur : LayerId} (h : inhStep layers coords cur = none) (fuel : Nat) :
    inhLoop layers coords idx cur (fuel + 1) =
      some (0, (getLayer layers cur).default_action) ∨
    inhLoop layers coords idx cur (fuel + 1) =
      some (idx, (getLayer layers cur).get_key_event coords) := by
  unfold inhStep at h
  cases hc : (getLayer layers cur).get_key_event coords
  case Inh =>
    simp only [hc] at h
    refine Or.inl ?_
    rw [inhLoop, hc, h]
  case Pass =>
    refine Or.inl ?_
    rw [inhLoop, hc]
  all_goals refine Or.inr ?_
  all_goals rw [inhLoop, hc]

theorem inhLoop_chord {layers : Config} (h : chordConfig layers) (coords : KeyCoords)
    (idx : LayerId) :
    ∀ (fuel : Nat) (cur j : LayerId) (ev : KeymapEvent),
      inhLoop layers coords idx cur fuel = some (j, ev) →
      ∀ kg ∈ ev.keygroups, kg.sequential = false := by
  intro fuel
  induction fuel with
  | zero => intro cur j ev hres; cases hres
  | succ fuel ih =>
    intro cur j ev hres
    cases hs : inhStep layers coords cur with
    | some nxt =>
      rw [inhLoop_step_some hs] at hres
      exact ih _ _ _ hres
    | none =>
      rcases inhLoop_ret_none idx hs fuel with hq | hq <;> rw [hq] at hres <;>
        simp only [Option.some.injEq, Prod.mk.injEq] at hres <;>
        obtain ⟨-, hev⟩ := hres <;> subst hev
      · exact chord_cells h cur _ (default_action_mem_allCells _)
      · exact chord_cells h cur _ (get_key_event_mem_allCells _ _)

theorem scan_chord {layers : Config} (h : chordConfig layers) (s : SwState)
    (coords : KeyCoords) :
    ∀ (L : List Nat) (i : LayerId) (ev : KeymapEvent),
      scanLayers layers s coords L = some (i, some ev) →
      ∀ kg ∈ ev.keygroups, kg.sequential = false := by
  intro L
  induction L with
  | nil =>
    intro i ev hres
    simp [scanLayers] at hres
  | cons idx rest ih =>
    intro i ev hres
    rw [scanLayers] at hres
    split at hres
    · exact ih _ _ hres
    · cases hw : get_key_event_inheritance layers coords idx with
      | none => rw [hw] at hres; cases hres
      | some r =>
        rw [hw] at hres
        obtain ⟨jj, ev'⟩ := r
        dsimp only at hres
        split at hres
        · simp only [Option.some.injEq, Prod.mk.injEq] at hres
          obtain ⟨-, hev⟩ := hres
          obtain rfl : ev' = ev := hev
          unfold get_key_event_inheritance at hw
          exact inhLoop_chord h coords idx _ _ _ _ hw
        · exact ih _ _ hres

theorem get_key_event_chord {layers : Config} (h : chordConfig layers) (s : SwState)
    (coords : KeyCoords) (i : LayerId) (ev : KeymapEvent)
    (hres : get_key_event layers s coords = some (i, some ev)) :
    ∀ kg ∈ ev.keygroups, kg.sequential = false :=
  scan_chord h s coords _ i ev hres

/-! ### The full-click emission pattern is balanced per coordinate (C3) -/

theorem click_balanced (c coords : KeyCoords) (mask keys : List Key) :
    downsAt c (mask.map (fun k => (⟨coords, k, false⟩ : Emit)) ++
      keys.map (fun k => (⟨coords, k, true⟩ : Emit)) ++
      keys.reverse.map (fun k => (⟨coords, k, false⟩ : Emit)) ++
      mask.reverse.map (fun k => (⟨coords, k, true⟩ : Emit))) =
    (upsAt c (mask.map (fun k => (⟨coords, k, false⟩ : Emit)) ++
      keys.map (fun k => (⟨coords, k, true⟩ : Emit)) ++
      keys.reverse.map (fun k => (⟨coords, k, false⟩ : Emit)) ++
      mask.reverse.map (fun k => (⟨coords, k, true⟩ : Emit)))).reverse := by
  unfold downsAt upsAt
  by_cases hc : coords = c
  · subst hc
    simp [List.filter_append, List.filter_map, Function.comp_def, List.map_map,
      List.reverse_append]
  · simp [List.filter_append, List.filter_map, Function.comp_def, hc]

theorem empty_balanced (c : KeyCoords) :
    downsAt c [] = (upsAt c []).reverse := rfl

/-! ### Release pass evaluation (C3) -/

theorem inert_no_tap {e : LayerStackEntry} (h : InertEntry e) :
    e.status ≠ LayerActiveUntilAnyKeyPress := by
  rcases h with h | h | h <;> simp [h]

theorem no_tap_of_set {base : List LayerStackEntry}
    (hbase : ∀ e ∈ base, InertEntry e) {m : Nat} {e0 : LayerStackEntry}
    (he0 : e0.status ≠ LayerActiveUntilAnyKeyPress) :
    ∀ e ∈ base.set m e0, e.status ≠ LayerActiveUntilAnyKeyPress := by
  intro e he
  rcases List.mem_or_eq_of_mem_set he with h | rfl
  · exact inert_no_tap (hbase _ h)
  · exact he0

theorem quiet_layer_tap {layers : Config}
    (hOA : ∀ idx, (getLayer layers idx).on_active_keys = []) (idx : LayerId)
    (coords : KeyCoords) (s : SwState) :
    (layer_tap layers idx coords s).emitted = s.emitted ∧
    (layer_tap layers idx coords s).presses = s.presses := by
  rcases layer_tap_eq hOA idx coords s with h | ⟨-, h⟩ <;> rw [h] <;> exact ⟨rfl, rfl⟩

theorem release_inert_nopresses (layers : Config) (s1 : SwState) (coords : KeyCoords)
    (t' : Time) (hs : ∀ e ∈ s1.stack, InertEntry e) (hp : s1.presses = []) :
    process_keyevent_release layers s1 coords t' = s1 := by
  unfold process_keyevent_release
  rw [fold_release_inert s1.stack.enum s1
    (fun p hpm => hs p.2 (snd_mem_of_mem_enumFrom hpm))]
  dsimp only
  rw [hp]
  rfl

theorem release_one_record {layers : Config} (s1 : SwState) (coords : KeyCoords)
    (t' : Time) (rec : PressRec)
    (hs : ∀ e ∈ s1.stack, InertEntry e) (hp : s1.presses = [rec])
    (hc : rec.coords = coords) :
    process_keyevent_release layers s1 coords t' =
      after_key_release layers rec.layer
        (match rec.kg with
         | some kg =>
           if rec.mode = ForceClick then
             keygroup_press layers kg coords rec.layer t' true ⟨s1.stack, [], s1.emitted⟩
           else
             keygroup_release layers kg coords rec.layer ⟨s1.stack, [], s1.emitted⟩
         | none => ⟨s1.stack, [], s1.emitted⟩) := by
  unfold process_keyevent_release
  rw [fold_release_inert s1.stack.enum s1
    (fun p hpm => hs p.2 (snd_mem_of_mem_enumFrom hpm))]
  dsimp only
  rw [hp]
  have hfind : find_press [rec] coords = some (0, rec) := by
    simp [find_press, hc]
  rw [hfind]
  dsimp only
  have hswap : swapRemove [rec] 0 = [] := by simp [swapRemove]
  rw [hswap]

theorem release_eq_of_set {layers : Config} {s1 : SwState} {base : List LayerStackEntry}
    {m : Nat} {e : LayerStackEntry} (coords : KeyCoords) (t' : Time)
    (hstack : s1.stack = base.set m e) (hm : m < base.length)
    (hbase : ∀ e' ∈ base, InertEntry e')
    (hsp : (releaseStep layers coords t' s1 (m, e)).presses = []) :
    process_keyevent_release layers s1 coords t' =
      releaseStep layers coords t' s1 (m, e) := by
  unfold process_keyevent_release
  have henum : s1.stack.enum = (base.set m e).enumFrom 0 := by rw [hstack]; rfl
  rw [henum, fold_release_enumFrom_set base m e 0 s1 hm hbase]
  simp only [Nat.zero_add]
  rw [hsp]
  rfl

theorem releaseStep_hatk_balanced {layers : Config} (hcfg : chordConfig layers)
    (coords : KeyCoords) (t' : Time) (m : Nat) (t0 : Time) (kl : LayerId)
    (s1 : SwState) (hp : s1.presses = []) (hem : s1.emitted = []) :
    (releaseStep layers coords t' s1
        (m, ⟨LayerHoldAndTapKey coords t0 kl, true⟩)).presses = [] ∧
    ∀ c, downsAt c (releaseStep layers coords t' s1
        (m, ⟨LayerHoldAndTapKey coords t0 kl, true⟩)).emitted =
      (upsAt c (releaseStep layers coords t' s1
        (m, ⟨LayerHoldAndTapKey coords t0 kl, true⟩)).emitted).reverse := by
  have hOA := chord_on_active_keys hcfg
  have haccp : (layer_deactivate layers m s1).presses = [] := by
    rw [(quiet_layer_deactivate hOA m s1).2, hp]
  have hacce : (layer_deactivate layers m s1).emitted = [] := by
    rw [(quiet_layer_deactivate hOA m s1).1, hem]
  unfold releaseStep
  dsimp only
  rw [if_pos rfl]
  split
  · cases hcell : (getLayer layers kl).get_key_event coords
    case LhtK i2 k2 =>
      have hcell' := chord_cells hcfg kl _
        (get_key_event_mem_allCells (getLayer layers kl) coords)
      rw [hcell] at hcell'
      have hk2 : k2.sequential = false :=
        hcell' k2 (by simp [KeymapEvent.keygroups])
      obtain ⟨hce, hcp, -⟩ :=
        keygroup_press_click_components hOA k2 coords kl t'
          (layer_deactivate layers m s1) hk2
      constructor
      · rw [hcp, haccp]
      · intro c
        rw [hce, hacce]
        simpa using click_balanced c coords k2.mask k2.keys
    all_goals exact ⟨haccp, fun c => by rw [hacce]; exact empty_balanced c⟩
  · exact ⟨haccp, fun c => by rw [hacce]; exact empty_balanced c⟩

theorem releaseStep_aukr_quiet {layers : Config}
    (hOA : ∀ i, (getLayer layers i).on_active_keys = []) (coords : KeyCoords)
    (t' : Time) (m : Nat) (s1 : SwState) :
    (releaseStep layers coords t' s1
        (m, ⟨LayerActiveUntilKeyRelease coords, true⟩)).presses = s1.presses ∧
    (releaseStep layers coords t' s1
        (m, ⟨LayerActiveUntilKeyRelease coords, true⟩)).emitted = s1.emitted := by
  unfold releaseStep
  dsimp only
  rw [if_pos rfl]
  exact ⟨(quiet_layer_deactivate hOA m s1).2, (quiet_layer_deactivate hOA m s1).1⟩

theorem releaseStep_aukrtap_quiet (layers : Config) (coords : KeyCoords)
    (t' : Time) (m : Nat) (s1 : SwState) :
    (releaseStep layers coords t' s1
        (m, ⟨LayerActiveUntilKeyReleaseTap coords, true⟩)).presses = s1.presses ∧
    (releaseStep layers coords t' s1
        (m, ⟨LayerActiveUntilKeyReleaseTap coords, true⟩)).emitted = s1.emitted := by
  unfold releaseStep
  dsimp only
  rw [if_pos rfl]
  exact ⟨rfl, rfl⟩

theorem releaseStep_hatl_quiet {layers : Config}
    (hOA : ∀ i, (getLayer layers i).on_active_keys = []) (coords : KeyCoords)
    (t' : Time) (m : Nat) (t0 : Time) (nxt : LayerId) (s1 : SwState) :
    (releaseStep layers coords t' s1
        (m, ⟨LayerHoldAndTapToL coords t0 nxt, true⟩)).presses = s1.presses ∧
    (releaseStep layers coords t' s1
        (m, ⟨LayerHoldAndTapToL coords t0 nxt, true⟩)).emitted = s1.emitted := by
  unfold releaseStep
  dsimp only
  rw [if_pos rfl]
  split
  · constructor
    · rw [show ∀ (x : SwState) (j : LayerId) (st : LayerStatus),
          (setStatus x j st).presses = x.presses from fun _ _ _ => rfl]
      rw [(quiet_layer_tap hOA nxt coords _).2, (quiet_layer_deactivate hOA m s1).2]
    · rw [show ∀ (x : SwState) (j : LayerId) (st : LayerStatus),
          (setStatus x j st).emitted = x.emitted from fun _ _ _ => rfl]
      rw [(quiet_layer_tap hOA nxt coords _).1, (quiet_layer_deactivate hOA m s1).1]
  · exact ⟨(quiet_layer_deactivate hOA m s1).2, (quiet_layer_deactivate hOA m s1).1⟩

/-- **C3, amended.** For a *chord configuration* — every key group the
keymaps reference is non-sequential (a held chord), no layer has
`on_active_keys`, and every reset status is one the loader produces — and
for every coordinate: starting from a freshly started switcher, across the
two events `Pressed(k); Released(k)` with no other input in between, the
emitted key-downs equal the reverse of the emitted key-ups, per coordinate.
(The round-trip law of the original claim fails for sequential groups and
for `on_active_keys` bookkeeping, which emits activation key-downs and
deactivation key-ups in the same, un-reversed order.) -/
theorem C3_chord_press_release_balanced (layers : Config) (coords : KeyCoords)
    (t t' : Time) (s1 : SwState)
    (hcfg : chordConfig layers)
    (hpress : process_keyevent_press layers (start layers) coords t = some s1)
    (c : KeyCoords) :
    downsAt c (process_keyevent_release layers s1 coords t').emitted =
      (upsAt c (process_keyevent_release layers s1 coords t').emitted).reverse := by
  have hOA := chord_on_active_keys hcfg
  have hinert0 := chord_start_inert hcfg
  have hp0 : (start layers).presses = [] := rfl
  have he0 : (start layers).emitted = [] := rfl
  unfold process_keyevent_press at hpress
  cases hres : get_key_event layers (start layers) coords with
  | none => rw [hres] at hpress; cases hpress
  | some r =>
    rw [hres] at hpress
    obtain ⟨srclayer, optEv⟩ := r
    cases optEv with
    | none =>
      dsimp only at hpress
      obtain rfl := Option.some.inj hpress
      rw [release_inert_nopresses layers _ coords t' hinert0 hp0]
      exact empty_balanced c
    | some ev =>
      dsimp only at hpress
      have hs1 := Option.some.inj hpress
      have hevch : ∀ kg ∈ ev.keygroups, kg.sequential = false :=
        get_key_event_chord hcfg (start layers) coords srclayer ev hres
      clear hpress hres
      cases ev
      case No =>
        dsimp only [dispatch_press] at hs1
        rw [retireTap_id (fun e he => inert_no_tap (hinert0 e he))] at hs1
        subst hs1
        rw [release_inert_nopresses layers _ coords t' hinert0 hp0]
        exact empty_balanced c
      case Inh =>
        dsimp only [dispatch_press] at hs1
        rw [retireTap_id (fun e he => inert_no_tap (hinert0 e he))] at hs1
        subst hs1
        rw [release_inert_nopresses layers _ coords t' hinert0 hp0]
        exact empty_balanced c
      case Pass =>
        dsimp only [dispatch_press] at hs1
        rw [retireTap_id (fun e he => inert_no_tap (hinert0 e he))] at hs1
        subst hs1
        rw [release_inert_nopresses layers _ coords t' hinert0 hp0]
        exact empty_balanced c
      case Kg kg =>
        dsimp only [dispatch_press] at hs1
        have hkch : kg.sequential = false := hevch kg (by simp [KeymapEvent.keygroups])
        obtain ⟨hde, hdp, hdi⟩ :=
          keygroup_press_chord_components hOA kg coords srclayer t (start layers) hkch
        have hdinert := hdi hinert0
        rw [retireTap_id (fun e he => inert_no_tap (hdinert e he))] at hs1
        subst hs1
        have hrec : (keygroup_press layers kg coords srclayer t false
            (start layers)).presses = [⟨srclayer, coords, Reverse, some kg, t⟩] := by
          rw [hdp, hp0]
          rfl
        rw [release_one_record _ coords t' _ hdinert hrec rfl]
        dsimp only
        rw [if_neg (by decide)]
        obtain ⟨hre, hrp⟩ := keygroup_release_components hOA kg coords srclayer
          ⟨(keygroup_press layers kg coords srclayer t false (start layers)).stack, [],
            (keygroup_press layers kg coords srclayer t false (start layers)).emitted⟩ hkch
        rw [(akr_quiet hOA srclayer _).1, hre]
        dsimp only
        rw [hde, he0]
        simpa [List.append_assoc] using click_balanced c coords kg.mask kg.keys
      case Klong kshort klong =>
        dsimp only [dispatch_press] at hs1
        have hkch : kshort.sequential = false :=
          hevch kshort (by simp [KeymapEvent.keygroups])
        set d : SwState :=
          { start layers with presses := (start layers).presses ++
              [⟨srclayer, coords, ForceClick, some kshort, t⟩] } with hd
        rw [retireTap_id (s := d) (fun e he => inert_no_tap (hinert0 e he))] at hs1
        subst hs1
        have hdinert : ∀ e ∈ d.stack, InertEntry e := fun e he => hinert0 e he
        have hrec : d.presses = [⟨srclayer, coords, ForceClick, some kshort, t⟩] := rfl
        rw [release_one_record d coords t' _ hdinert hrec rfl]
        dsimp only
        rw [if_pos rfl]
        obtain ⟨hce, hcp, -⟩ :=
          keygroup_press_click_components hOA kshort coords srclayer t'
            ⟨d.stack, [], d.emitted⟩ hkch
        rw [(akr_quiet hOA srclayer _).1, hce]
        dsimp only
        have hde0 : d.emitted = [] := rfl
        rw [hde0]
        simpa [List.append_assoc] using click_balanced c coords kshort.mask kshort.keys
      case Khl k lyr =>
        dsimp only [dispatch_press] at hs1
        have hkch : k.sequential = false :=
          hevch k (by simp [KeymapEvent.keygroups])
        set d : SwState :=
          { start layers with presses := (start layers).presses ++
              [⟨srclayer, coords, ForceClick, some k, t⟩] } with hd
        rw [retireTap_id (s := d) (fun e he => inert_no_tap (hinert0 e he))] at hs1
        subst hs1
        have hdinert : ∀ e ∈ d.stack, InertEntry e := fun e he => hinert0 e he
        have hrec : d.presses = [⟨srclayer, coords, ForceClick, some k, t⟩] := rfl
        rw [release_one_record d coords t' _ hdinert hrec rfl]
        dsimp only
        rw [if_pos rfl]
        obtain ⟨hce, hcp, -⟩ :=
          keygroup_press_click_components hOA k coords srclayer t'
            ⟨d.stack, [], d.emitted⟩ hkch
        rw [(akr_quiet hOA srclayer _).1, hce]
        dsimp only
        have hde0 : d.emitted = [] := rfl
        rw [hde0]
        simpa [List.append_assoc] using click_balanced c coords k.mask k.keys
      case Khtl k lyr =>
        dsimp only [dispatch_press] at hs1
        have hkch : k.sequential = false :=
          hevch k (by simp [KeymapEvent.keygroups])
        set d : SwState :=
          { start layers with presses := (start layers).presses ++
              [⟨srclayer, coords, ForceClick, some k, t⟩] } with hd
        rw [retireTap_id (s := d) (fun e he => inert_no_tap (hinert0 e he))] at hs1
        subst hs1
        have hdinert : ∀ e ∈ d.stack, InertEntry e := fun e he => hinert0 e he
        have hrec : d.presses = [⟨srclayer, coords, ForceClick, some k, t⟩] := rfl
        rw [release_one_record d coords t' _ hdinert hrec rfl]
        dsimp only
        rw [if_pos rfl]
        obtain ⟨hce, hcp, -⟩ :=
          keygroup_press_click_components hOA k coords srclayer t'
            ⟨d.stack, [], d.emitted⟩ hkch
        rw [(akr_quiet hOA srclayer _).1, hce]
        dsimp only
        have hde0 : d.emitted = [] := rfl
        rw [hde0]
        simpa [List.append_assoc] using click_balanced c coords k.mask k.keys
      case Lmove idx =>
        dsimp only [dispatch_press] at hs1
        obtain ⟨hde, hdp⟩ := quiet_layer_move hOA idx (start layers)
        have hdinert := inert_layer_move hOA idx hinert0
        rw [retireTap_id (fun e he => inert_no_tap (hdinert e he))] at hs1
        subst hs1
        rw [release_inert_nopresses layers _ coords t' hdinert (by rw [hdp, hp0])]
        rw [hde, he0]
        exact empty_balanced c
      case Lactivate idx =>
        dsimp only [dispatch_press] at hs1
        obtain ⟨hde, hdp⟩ := quiet_layer_activate hOA idx (start layers)
        have hdinert := inert_layer_activate hOA idx hinert0
        rw [retireTap_id (fun e he => inert_no_tap (hdinert e he))] at hs1
        subst hs1
        rw [release_inert_nopresses layers _ coords t' hdinert (by rw [hdp, hp0])]
        rw [hde, he0]
        exact empty_balanced c
      case Ldeactivate idx =>
        dsimp only [dispatch_press] at hs1
        obtain ⟨hde, hdp⟩ := quiet_layer_deactivate hOA idx (start layers)
        have hdinert := inert_layer_deactivate hOA idx hinert0
        rw [retireTap_id (fun e he => inert_no_tap (hdinert e he))] at hs1
        subst hs1
        rw [release_inert_nopresses layers _ coords t' hdinert (by rw [hdp, hp0])]
        rw [hde, he0]
        exact empty_balanced c
      case Ldisable idx =>
        dsimp only [dispatch_press] at hs1
        obtain ⟨hde, hdp⟩ := quiet_layer_disable hOA idx (start layers)
        have hdinert := inert_layer_disable hOA idx hinert0
        rw [retireTap_id (fun e he => inert_no_tap (hdinert e he))] at hs1
        subst hs1
        rw [release_inert_nopresses layers _ coords t' hdinert (by rw [hdp, hp0])]
        rw [hde, he0]
        exact empty_balanced c
      case Lhold idx =>
        dsimp only [dispatch_press] at hs1
        rcases layer_hold_eq hOA idx coords (start layers) with hcase | ⟨hlt, hcase⟩
        · rw [hcase] at hs1
          rw [retireTap_id (fun e he => inert_no_tap (hinert0 e he))] at hs1
          subst hs1
          rw [release_inert_nopresses layers _ coords t' hinert0 hp0]
          exact empty_balanced c
        · rw [hcase] at hs1
          rw [retireTap_id (no_tap_of_set hinert0 (by simp))] at hs1
          subst hs1
          obtain ⟨hqp, hqe⟩ := releaseStep_aukr_quiet hOA coords t' idx _
          rw [release_eq_of_set coords t' rfl hlt hinert0 (by rw [hqp]; rfl)]
          rw [hqe]
          exact empty_balanced c
      case Ltap idx =>
        dsimp only [dispatch_press] at hs1
        rcases layer_tap_eq hOA idx coords (start layers) with hcase | ⟨hlt, hcase⟩
        · rw [hcase] at hs1
          rw [retireTap_id (fun e he => inert_no_tap (hinert0 e he))] at hs1
          subst hs1
          rw [release_inert_nopresses layers _ coords t' hinert0 hp0]
          exact empty_balanced c
        · rw [hcase] at hs1
          rw [retireTap_id (no_tap_of_set hinert0 (by simp))] at hs1
          subst hs1
          obtain ⟨hqp, hqe⟩ := releaseStep_aukrtap_quiet layers coords t' idx _
          rw [release_eq_of_set coords t' rfl hlt hinert0 (by rw [hqp]; rfl)]
          rw [hqe]
          exact empty_balanced c
      case LhtL idx idx2 =>
        dsimp only [dispatch_press] at hs1
        rcases layer_hold_tap_eq hOA idx idx2 coords t (start layers) with hcase | ⟨hlt, hcase⟩
        · rw [hcase] at hs1
          rw [retireTap_id (fun e he => inert_no_tap (hinert0 e he))] at hs1
          subst hs1
          rw [release_inert_nopresses layers _ coords t' hinert0 hp0]
          exact empty_balanced c
        · rw [hcase] at hs1
          rw [retireTap_id (no_tap_of_set hinert0 (by simp))] at hs1
          subst hs1
          obtain ⟨hqp, hqe⟩ := releaseStep_hatl_quiet hOA coords t' idx t idx2 _
          rw [release_eq_of_set coords t' rfl hlt hinert0 (by rw [hqp]; rfl)]
          rw [hqe]
          exact empty_balanced c
      case LhtK idx k =>
        dsimp only [dispatch_press] at hs1
        rcases layer_hold_key_eq hOA idx coords t srclayer (start layers) with
          hcase | ⟨hlt, hcase⟩
        · rw [hcase] at hs1
          rw [retireTap_id (fun e he => inert_no_tap (hinert0 e he))] at hs1
          subst hs1
          rw [release_inert_nopresses layers _ coords t' hinert0 hp0]
          exact empty_balanced c
        · rw [hcase] at hs1
          rw [retireTap_id (no_tap_of_set hinert0 (by simp))] at hs1
          subst hs1
          obtain ⟨hsp, hbal⟩ :=
            releaseStep_hatk_balanced hcfg coords t' idx t srclayer
              { start layers with stack :=
                  ((start layers).stack.set idx (⟨LayerHoldAndTapKey coords t srclayer, true⟩ : LayerStackEntry)) } rfl rfl
          rw [release_eq_of_set coords t' rfl hlt hinert0 hsp]
          exact hbal c

theorem C3_chord_press_release_balanced_witness :
    chordConfig cfgKlong ∧
    process_keyevent_press cfgKlong (start cfgKlong) B01 0 = some sKlong ∧
    downsAt B01 (process_keyevent_release cfgKlong sKlong B01 100).emitted =
      (upsAt B01 (process_keyevent_release cfgKlong sKlong B01 100).emitted).reverse :=
  ⟨by unfold chordConfig; decide, by decide,
   C3_chord_press_release_balanced cfgKlong B01 0 100 sKlong
     (by unfold chordConfig; decide) (by decide) B01⟩

end Ack05
